import Mathlib

/-!
# Verification of the HAR analyzer engine

A shallow embedding, in Lean 4, of the analysis engine of the `har-analyzer`
repository (`src/lib/harParser.ts`, `src/lib/analyzer.ts` and the UX-timeline
analyzer), together with theorems settling the specification claims about it.

Modelling conventions:

* JavaScript numbers are modelled as mathematical integers (`Int`): every
  numeric value flowing through the engine is a count of milliseconds or
  bytes, and none of the verified properties depends on fractional values.
  The single division in the source (the comparator's relative-spread test
  `maxDiff / minTime > 0.5`) is modelled exactly over `ℚ`, including the
  IEEE-754 behaviour of division by zero (`x / 0` is `+Infinity` for
  `x > 0`, which compares greater than `0.5`, and `NaN` for `x = 0`, for
  which every ordered comparison is false).
* `Math.round` is the identity on this integer model (`mathRound`); where
  the source rounds an average `sum / count`, the helper `mathRoundAvg`
  computes `⌊sum/count + 1/2⌋` exactly (`Math.round x = ⌊x + 1/2⌋`).
* `Math.max(...xs)` returns `-Infinity` on an empty argument list; it is
  modelled by `jsMathMax : List Int → Option Int` with `none` standing for
  `-Infinity`.
* `Array.prototype.sort` with a well-behaved comparator is a stable sort;
  it is modelled by `List.insertionSort` (stable) with the corresponding
  relation.
* The platform builtins `new URL(...)` (which throws on unparseable input)
  and `new Date(...).getTime()` are not part of the repository; they are
  abstracted as explicit function parameters: `newURL : String → Except Unit
  URLParts` (an `Except.error` models the thrown `TypeError`) and
  `parseDate : String → Int` (milliseconds since the epoch).
* `try { ... } catch { ... }` around `new URL` becomes a `match` on the
  `Except` result; `throw new Error(...)` in the parser becomes
  `Except.error`.
* JS `Map` preserves insertion order, and `set` on an existing key updates
  the value in place; maps are modelled as association lists with
  update-in-place / append-at-end semantics.
* JS string interpolation of numbers uses `toString`; object payloads that
  the source serialises with `JSON.stringify` are modelled as typed values
  (the serialisation is injective on them and purely presentational).
-/

/-! ## JS helper functions -/

/-- `Math.round` on the integer model of JS numbers: the identity. -/
def mathRound (x : Int) : Int := x

/-- `Math.round (sum / count)` for an integer `sum` and a positive integer
`count`, computed exactly: `Math.round x = ⌊x + 1/2⌋`, and
`⌊sum/count + 1/2⌋ = ⌊(2*sum + count) / (2*count)⌋` (floor division). -/
def mathRoundAvg (sum : Int) (count : Int) : Int :=
  Int.fdiv (2 * sum + count) (2 * count)

/-- `Math.max(...xs)`: `none` models the `-Infinity` returned on an empty
argument list. -/
def jsMathMax (xs : List Int) : Option Int :=
  xs.foldl (fun acc x => some (match acc with | none => x | some a => max a x)) none

/-- List-of-characters prefix test (used to model JS string operations). -/
def charsPrefix : List Char → List Char → Bool
  | _, [] => true
  | [], _ :: _ => false
  | a :: l, b :: m => a == b && charsPrefix l m

/-- List-of-characters substring test. -/
def charsSub : List Char → List Char → Bool
  | [], pat => pat.isEmpty
  | l@(_ :: t), pat => charsPrefix l pat || charsSub t pat

/-- JS `String.prototype.includes`. -/
def strIncludes (s pat : String) : Bool := charsSub s.toList pat.toList

/-- JS `String.prototype.endsWith`. -/
def strEndsWith (s pat : String) : Bool :=
  charsPrefix s.toList.reverse pat.toList.reverse

/-- JS `String.prototype.toLowerCase`, as a character-wise map. -/
def strToLower (s : String) : String := String.mk (s.toList.map Char.toLower)

/-! ## Data model (`src/types/har.ts`, the fields the engine reads) -/

/-- One request or response header. -/
structure HarHeader where
  name : String
  value : String
deriving DecidableEq, Repr, Inhabited

/-- The HAR timing breakdown of one entry.  `blocked`, `dns`, `connect` and
`ssl` are optional in HAR 1.2 (`none` models `undefined`); a present value
may still be the `-1` sentinel. -/
structure HarTimings where
  blocked : Option Int
  dns : Option Int
  connect : Option Int
  ssl : Option Int
  send : Int
  wait : Int
  receive : Int
deriving DecidableEq, Repr, Inhabited

/-- The response content descriptor. -/
structure HarContent where
  size : Int
  mimeType : String
deriving DecidableEq, Repr, Inhabited

/-- The request part of a HAR entry (the fields the engine reads). -/
structure HarRequest where
  method : String
  url : String
  headers : List HarHeader
deriving DecidableEq, Repr, Inhabited

/-- The response part of a HAR entry (the fields the engine reads). -/
structure HarResponse where
  status : Int
  content : HarContent
  bodySize : Int
deriving DecidableEq, Repr, Inhabited

/-- One HAR entry. -/
structure HarEntry where
  startedDateTime : String
  time : Int
  request : HarRequest
  response : HarResponse
  timings : HarTimings
deriving DecidableEq, Repr, Inhabited

/-- The HAR log: the ordered entry sequence. -/
structure HarLog where
  entries : List HarEntry
deriving DecidableEq, Repr, Inhabited

/-- A parsed HAR document. -/
structure HarFile where
  log : HarLog
deriving DecidableEq, Repr, Inhabited

/-- Request type assigned by the classifier. -/
inductive RequestType where
  | document | xhr | fetch | script | stylesheet | image | font | media | other
deriving DecidableEq, Repr, Inhabited

/-- Severity tier assigned by the classifier. -/
inductive SeverityLevel where
  | normal | warning | critical
deriving DecidableEq, Repr, Inhabited

/-- Issue category (`categorizeIssue` in `harParser.ts`). -/
inductive IssueType where
  | slow_dns | slow_connect | slow_ssl | slow_ttfb | slow_download
  | large_payload | blocking
deriving DecidableEq, Repr, Inhabited

/-- One classified request (`ParsedRequest` in `src/types/har.ts`). -/
structure ParsedRequest where
  id : String
  url : String
  method : String
  status : Int
  type : RequestType
  size : Int
  time : Int
  timings : HarTimings
  startTime : Int
  severity : SeverityLevel
  issues : List String
deriving DecidableEq, Repr, Inhabited

/-- One issue row of a region (`AnalysisIssue`). -/
structure AnalysisIssue where
  type : IssueType
  severity : SeverityLevel
  message : String
  url : String
  value : Int
  threshold : Int
deriving DecidableEq, Repr, Inhabited

/-- One region's summary (`RegionData`).  `totalTime` is `Option Int`
because it is produced by `Math.max(...)`, whose value on an empty argument
list is `-Infinity` (`none`). -/
structure RegionData where
  name : String
  fileName : String
  requests : List ParsedRequest
  totalTime : Option Int
  totalSize : Int
  requestCount : Nat
  slowRequests : Nat
  issues : List AnalysisIssue
deriving DecidableEq, Repr, Inhabited

/-! ## `src/lib/harParser.ts` -/

/-- A warning/critical threshold pair (one row of `THRESHOLDS`). -/
structure Threshold where
  warning : Int
  critical : Int
deriving DecidableEq, Repr, Inhabited

/-- The per-type rows of the `THRESHOLDS` table.  `media` has no row in the
source table (the lookup falls back to `other` via `|| THRESHOLDS.other`). -/
def thresholdsTable : RequestType → Option Threshold
  | .script => some ⟨500, 1500⟩
  | .stylesheet => some ⟨500, 1500⟩
  | .image => some ⟨1000, 3000⟩
  | .font => some ⟨500, 1500⟩
  | .document => some ⟨1000, 3000⟩
  | .other => some ⟨1000, 3000⟩
  | _ => none

/-- `THRESHOLDS.api` (used for `xhr`/`fetch`). -/
def thresholdsApi : Threshold := ⟨500, 1000⟩

/-- The per-phase rows of `THRESHOLDS`. -/
def thresholdsDns : Threshold := ⟨100, 300⟩

def thresholdsConnect : Threshold := ⟨200, 500⟩

def thresholdsSsl : Threshold := ⟨200, 500⟩

def thresholdsTtfb : Threshold := ⟨500, 1500⟩

def thresholdsDownload : Threshold := ⟨1000, 3000⟩

/-- `getRequestType` (`harParser.ts:37`): classify an entry from its
`X-Requested-With` header, MIME type and URL.  The regex tests
`/\.(png|…)/.test(url)` are unanchored alternations of literals, i.e.
"contains `.` followed by one of the extensions". -/
def getRequestType (entry : HarEntry) : RequestType :=
  let mimeType := strToLower entry.response.content.mimeType
  let url := strToLower entry.request.url
  let initiatorType :=
    (entry.request.headers.find? (fun h => strToLower h.name == "x-requested-with")).map
      (fun h => strToLower h.value)
  if initiatorType == some "xmlhttprequest" then .xhr
  else if strIncludes mimeType "json" || strIncludes mimeType "xml" then .fetch
  else if strIncludes mimeType "html" then .document
  else if strIncludes mimeType "javascript" || strEndsWith url ".js" then .script
  else if strIncludes mimeType "css" || strEndsWith url ".css" then .stylesheet
  else if strIncludes mimeType "image"
      || ["png", "jpg", "jpeg", "gif", "svg", "webp", "ico"].any
           (fun ext => strIncludes url ("." ++ ext)) then .image
  else if strIncludes mimeType "font"
      || ["woff", "woff2", "ttf", "otf", "eot"].any
           (fun ext => strIncludes url ("." ++ ext)) then .font
  else if strIncludes mimeType "video" || strIncludes mimeType "audio" then .media
  else .other

/-- `getSeverity` (`harParser.ts:68`).  The `"warning" in threshold &&
"critical" in threshold` guard of the source is always true for the rows
this lookup can produce (every row of the table has both fields). -/
def getSeverity (time : Int) (type : RequestType) : SeverityLevel :=
  let threshold :=
    if type == .xhr || type == .fetch then thresholdsApi
    else (thresholdsTable type).getD ⟨1000, 3000⟩
  if time ≥ threshold.critical then .critical
  else if time ≥ threshold.warning then .warning
  else .normal

/-- `analyzeRequestIssues` (`harParser.ts:83`).  A JS guard
`timings.dns && timings.dns >= T` is false when the field is `undefined` or
`0` (falsy) and otherwise tests the threshold. -/
def analyzeRequestIssues (timings : HarTimings) : List String :=
  let dnsIssue : List String :=
    match timings.dns with
    | some d => if d != 0 && d ≥ thresholdsDns.warning then
        [s!"DNS 查詢過慢 ({mathRound d}ms)"] else []
    | none => []
  let connectIssue : List String :=
    match timings.connect with
    | some c => if c != 0 && c ≥ thresholdsConnect.warning then
        [s!"TCP 連線過慢 ({mathRound c}ms)"] else []
    | none => []
  let sslIssue : List String :=
    match timings.ssl with
    | some c => if c != 0 && c ≥ thresholdsSsl.warning then
        [s!"SSL 握手過慢 ({mathRound c}ms)"] else []
    | none => []
  let waitIssue : List String :=
    if timings.wait ≥ thresholdsTtfb.warning then
      [s!"伺服器回應過慢 TTFB ({mathRound timings.wait}ms)"] else []
  let receiveIssue : List String :=
    if timings.receive ≥ thresholdsDownload.warning then
      [s!"下載時間過長 ({mathRound timings.receive}ms)"] else []
  let blockedIssue : List String :=
    match timings.blocked with
    | some b => if b != 0 && b > 100 then
        [s!"請求被阻塞 ({mathRound b}ms)"] else []
    | none => []
  dnsIssue ++ connectIssue ++ sslIssue ++ waitIssue ++ receiveIssue ++ blockedIssue

/-- `normalizeTimings` (`harParser.ts:187`): coerce missing or
sentinel-negative phase durations to zero. -/
def normalizeTimings (timings : HarTimings) : HarTimings where
  blocked := some (match timings.blocked with
    | some b => if b > 0 then b else 0
    | none => 0)
  dns := some (match timings.dns with
    | some d => if d > 0 then d else 0
    | none => 0)
  connect := some (match timings.connect with
    | some c => if c > 0 then c else 0
    | none => 0)
  ssl := some (match timings.ssl with
    | some s => if s > 0 then s else 0
    | none => 0)
  send := if timings.send > 0 then timings.send else 0
  wait := if timings.wait > 0 then timings.wait else 0
  receive := if timings.receive > 0 then timings.receive else 0

/-- `categorizeIssue` (`harParser.ts:202`). -/
def categorizeIssue (issue : String) : IssueType :=
  if strIncludes issue "DNS" then .slow_dns
  else if strIncludes issue "TCP" then .slow_connect
  else if strIncludes issue "SSL" then .slow_ssl
  else if strIncludes issue "TTFB" then .slow_ttfb
  else if strIncludes issue "下載" then .slow_download
  else if strIncludes issue "阻塞" then .blocking
  else .large_payload

/-- `parseHarFile` (`harParser.ts:111`).  `parseDate` abstracts
`new Date(s).getTime()`; the input is the already-JSON-parsed document
(`JSON.parse` and its failure are outside the embedded engine).  The empty
entry list throws, modelled by `Except.error`. -/
def parseHarFile (parseDate : String → Int) (har : HarFile)
    (regionName : String) (fileName : String) : Except String RegionData :=
  match har.log.entries with
  | [] => .error "HAR 檔案中沒有請求記錄"
  | e0 :: rest =>
    let entries := e0 :: rest
    let baseTime := parseDate e0.startedDateTime
    let requests : List ParsedRequest := entries.enum.map (fun p =>
      let index := p.1
      let entry := p.2
      let type := getRequestType entry
      let time := entry.time
      let severity := getSeverity time type
      let timings := normalizeTimings entry.timings
      { id := s!"{regionName}-{index}"
        url := entry.request.url
        method := entry.request.method
        status := entry.response.status
        type := type
        size := if entry.response.bodySize > 0 then entry.response.bodySize
                else entry.response.content.size
        time := time
        timings := timings
        startTime := parseDate entry.startedDateTime - baseTime
        severity := severity
        issues := analyzeRequestIssues timings })
    let slowRequests := (requests.filter (fun r => r.severity != .normal)).length
    let totalTime := jsMathMax (requests.map (fun r => r.startTime + r.time))
    let totalSize := requests.foldl
      (fun sum r => sum + (if r.size > 0 then r.size else 0)) 0
    let issues := (requests.filter (fun r => r.issues.length > 0)).flatMap
      (fun r => r.issues.map (fun issue =>
        { type := categorizeIssue issue
          severity := r.severity
          message := issue
          url := r.url
          value := r.time
          threshold := 0 : AnalysisIssue }))
    .ok { name := regionName
          fileName := fileName
          requests := requests
          totalTime := totalTime
          totalSize := totalSize
          requestCount := requests.length
          slowRequests := slowRequests
          issues := issues }

/-! ## `src/lib/analyzer.ts`: cross-region comparator -/

/-- The components of a parsed URL that the engine reads (`origin`,
`pathname`, `hostname` of a WHATWG `URL` object). -/
structure URLParts where
  origin : String
  pathname : String
  hostname : String
deriving DecidableEq, Repr, Inhabited

/-- `getBaseUrl` (`analyzer.ts:82`): origin + path of a parseable URL; the
raw string unchanged when `new URL` throws (the `catch` branch). -/
def getBaseUrl (newURL : String → Except Unit URLParts) (url : String) : String :=
  match newURL url with
  | .ok parsed => parsed.origin ++ parsed.pathname
  | .error _ => url

/-- `getDomain` (`src/lib/utils.ts`): hostname of a parseable URL, the raw
string otherwise. -/
def getDomain (newURL : String → Except Unit URLParts) (url : String) : String :=
  match newURL url with
  | .ok parsed => parsed.hostname
  | .error _ => url

/-- One region's representative datum for a URL (the values stored in the
comparator's inner `Map`). -/
structure RepEntry where
  time : Int
  timings : HarTimings
deriving DecidableEq, Repr, Inhabited

/-- One region's row of a `ComparisonResult`. -/
structure ComparisonRegion where
  name : String
  time : Int
  timings : HarTimings
deriving DecidableEq, Repr, Inhabited

/-- `ComparisonResult` (`src/types/har.ts`). -/
structure ComparisonResult where
  url : String
  regions : List ComparisonRegion
  maxDiff : Int
  slowestRegion : String
  fastestRegion : String
deriving DecidableEq, Repr, Inhabited

/-- Insert-or-update of the comparator's inner `Map` (region name ↦
representative), `analyzer.ts:33-39`: keep the slower of the existing and
the new time; a JS `Map.set` on an existing key updates in place, a new key
is appended in insertion order. -/
def updateRegionMap (regionName : String) (req : ParsedRequest) :
    List (String × RepEntry) → List (String × RepEntry)
  | [] => [(regionName, ⟨req.time, req.timings⟩)]
  | (n, e) :: rest =>
    if n == regionName then
      if e.time < req.time then (n, ⟨req.time, req.timings⟩) :: rest
      else (n, e) :: rest
    else (n, e) :: updateRegionMap regionName req rest

/-- Insert-or-update of the comparator's outer `Map` (base URL ↦ inner map),
`analyzer.ts:25-39`. -/
def updateUrlMap (newURL : String → Except Unit URLParts) (regionName : String)
    (req : ParsedRequest) :
    List (String × List (String × RepEntry)) → List (String × List (String × RepEntry))
  | [] => [(getBaseUrl newURL req.url, updateRegionMap regionName req [])]
  | (u, inner) :: rest =>
    if u == getBaseUrl newURL req.url then (u, updateRegionMap regionName req inner) :: rest
    else (u, inner) :: updateUrlMap newURL regionName req rest

/-- The comparator's URL map after the two nested `for` loops
(`analyzer.ts:22-41`). -/
def buildUrlMap (newURL : String → Except Unit URLParts) (regions : List RegionData) :
    List (String × List (String × RepEntry)) :=
  regions.foldl
    (fun m region =>
      region.requests.foldl (fun m request => updateUrlMap newURL region.name request m) m)
    []

/-- The JS test `maxDiff / minTime > 0.5`, evaluated with IEEE-754 division:
when `minTime = 0` the quotient is `+Infinity` (greater than `0.5`) for
`maxDiff > 0`, `NaN` (every comparison false) for `maxDiff = 0` and
`-Infinity` for `maxDiff < 0`; otherwise it is the exact quotient, modelled
over `ℚ`. -/
def spreadRatioGtHalf (maxDiff minTime : Int) : Bool :=
  if minTime = 0 then decide (0 < maxDiff)
  else decide ((1 : ℚ) / 2 < (maxDiff : ℚ) / (minTime : ℚ))

/-- The per-URL body of the comparator's second loop (`analyzer.ts:46-73`):
skip URLs with fewer than two regions, compute the spread, keep the
comparison only when the spread exceeds 100ms or half the minimum. -/
def compareUrl (url : String) (inner : List (String × RepEntry)) :
    Option ComparisonResult :=
  if inner.length < 2 then none
  else
    let regionResults : List ComparisonRegion :=
      inner.map (fun p => ⟨p.1, p.2.time, p.2.timings⟩)
    match regionResults.map (fun r => r.time) with
    | [] => none   -- unreachable: `inner.length ≥ 2`
    | t :: ts =>
      let maxTime := ts.foldl max t
      let minTime := ts.foldl min t
      let maxDiff := maxTime - minTime
      if decide (maxDiff > 100) || spreadRatioGtHalf maxDiff minTime then
        some { url := url
               regions := regionResults
               maxDiff := maxDiff
               slowestRegion :=
                 ((regionResults.find? (fun r => r.time == maxTime)).map
                   (fun r => r.name)).getD ""   -- the max is attained, `find?` succeeds
               fastestRegion :=
                 ((regionResults.find? (fun r => r.time == minTime)).map
                   (fun r => r.name)).getD "" }
      else none

/-- `compareRegions` (`analyzer.ts:13`): fewer than two regions yield no
comparisons; otherwise join by canonical URL, keep meaningful disparities,
sort by descending spread (JS `sort` is stable; modelled by the stable
`insertionSort`). -/
def compareRegions (newURL : String → Except Unit URLParts)
    (regions : List RegionData) : List ComparisonResult :=
  if regions.length < 2 then []
  else
    let comparisons := (buildUrlMap newURL regions).filterMap
      (fun p => compareUrl p.1 p.2)
    comparisons.insertionSort (fun a b => b.maxDiff ≤ a.maxDiff)

/-! ## `src/lib/analyzer.ts`: recommendation synthesizer -/

/-- Recommendation priority. -/
inductive RecPriority where
  | high | medium | low
deriving DecidableEq, Repr, Inhabited

/-- Recommendation category. -/
inductive RecCategory where
  | dns | connection | server | payload | caching | cdn
deriving DecidableEq, Repr, Inhabited

/-- One collected issue row (`IssueDetail` in `analyzer.ts:92`); the
`breakdown` only ever carries the fields the family reads, kept here as the
optional `ssl` companion used by the connection family. -/
structure IssueDetail where
  url : String
  value : Int
  region : String
  breakdownSsl : Option Int
deriving DecidableEq, Repr, Inhabited

/-- The `stats` object of the dns/connection/ttfb/download payloads. -/
structure PhaseStats where
  count : Nat
  avgTime : Int
  maxTime : Int
  domains : List String   -- only populated by the dns family
deriving DecidableEq, Repr, Inhabited

/-- One detail row of the dns/connection/ttfb/download payloads. -/
structure PhaseDetail where
  url : String
  value : Int
  ssl : Int        -- only populated by the connection family
  region : String
deriving DecidableEq, Repr, Inhabited

/-- The `stats` object of the region-disparity payload. -/
structure RegionStats where
  region : String
  slowCount : Nat
  avgDiff : Int
  totalComparisons : Nat
deriving DecidableEq, Repr, Inhabited

/-- One detail row of the region-disparity payload. -/
structure RegionDetail where
  url : String
  thisRegion : Int
  fastest : Int
  fastestRegion : String
  diff : Int
deriving DecidableEq, Repr, Inhabited

/-- The structured evidence payload that the source embeds into each
recommendation with `JSON.stringify` (the serialisation is injective on
these values and purely presentational, so the payload is modelled as a
typed value). -/
inductive RecPayload where
  | dns (stats : PhaseStats) (details : List PhaseDetail)
  | connection (stats : PhaseStats) (details : List PhaseDetail)
  | ttfb (stats : PhaseStats) (details : List PhaseDetail)
  | download (stats : PhaseStats) (details : List PhaseDetail)
  | region (stats : RegionStats) (details : List RegionDetail)
deriving DecidableEq, Repr, Inhabited

/-- `Recommendation` (`src/types/har.ts`). -/
structure Recommendation where
  priority : RecPriority
  category : RecCategory
  title : String
  description : RecPayload
  affectedUrls : List String
  affectedRegions : List String
deriving DecidableEq, Repr, Inhabited

/-- Sum of the `value` fields of a sorted issue list (the
`sorted.reduce((sum, i) => sum + i.value, 0)` of the source). -/
def issueValueSum (l : List IssueDetail) : Int :=
  l.foldl (fun sum i => sum + i.value) 0

/-- Sum of the `maxDiff` fields of a comparison list. -/
def compDiffSum (l : List ComparisonResult) : Int :=
  l.foldl (fun sum c => sum + c.maxDiff) 0

/-- The JS guard `t.dns && t.dns > T` on an optional timing field:
false on `undefined` and on the falsy `0`, else the threshold test. -/
def optGt (v : Option Int) (t : Int) : Bool :=
  match v with
  | some x => x != 0 && decide (x > t)
  | none => false

/-- The slowest-region tally of the region-disparity family
(`analyzer.ts:315-319`): a JS `Map` from region name to count, in insertion
order, updated in place. -/
def bumpCount (name : String) : List (String × Nat) → List (String × Nat)
  | [] => [(name, 1)]
  | (n, k) :: rest =>
    if n == name then (n, k + 1) :: rest else (n, k) :: bumpCount name rest

/-- The DNS issue rows collected by `generateRecommendations`
(`analyzer.ts:121-132`). -/
def dnsIssuesOf (regions : List RegionData) : List IssueDetail :=
  regions.flatMap (fun region =>
    region.requests.filterMap (fun request =>
      if optGt request.timings.dns 100 then
        some ⟨request.url, request.timings.dns.getD 0, region.name, none⟩
      else none))

/-- The TCP-connect issue rows (`analyzer.ts:134-141`); the `breakdown`
carries the companion `ssl` value. -/
def connectIssuesOf (regions : List RegionData) : List IssueDetail :=
  regions.flatMap (fun region =>
    region.requests.filterMap (fun request =>
      if optGt request.timings.connect 200 then
        some ⟨request.url, request.timings.connect.getD 0, region.name,
              request.timings.ssl⟩
      else none))

/-- The SSL issue rows (`analyzer.ts:143-150`); collected by the source but
consumed by no recommendation family. -/
def sslIssuesOf (regions : List RegionData) : List IssueDetail :=
  regions.flatMap (fun region =>
    region.requests.filterMap (fun request =>
      if optGt request.timings.ssl 200 then
        some ⟨request.url, request.timings.ssl.getD 0, region.name, none⟩
      else none))

/-- The TTFB issue rows (`analyzer.ts:152-159`). -/
def ttfbIssuesOf (regions : List RegionData) : List IssueDetail :=
  regions.flatMap (fun region =>
    region.requests.filterMap (fun request =>
      if decide (request.timings.wait > 500) then
        some ⟨request.url, request.timings.wait, region.name, none⟩
      else none))

/-- The download issue rows (`analyzer.ts:161-168`). -/
def downloadIssuesOf (regions : List RegionData) : List IssueDetail :=
  regions.flatMap (fun region =>
    region.requests.filterMap (fun request =>
      if decide (request.timings.receive > 1000) then
        some ⟨request.url, request.timings.receive, region.name, none⟩
      else none))

/-- The DNS family block of `generateRecommendations`
(`analyzer.ts:172-203`). -/
def dnsFamilyRecs (newURL : String → Except Unit URLParts)
    (regions : List RegionData) : List Recommendation :=
  let dnsIssues := dnsIssuesOf regions
  if dnsIssues.length > 0 then
    let sorted := dnsIssues.insertionSort (fun a b => b.value ≤ a.value)
    let avgDns := issueValueSum sorted
    let maxDns := (sorted.head?.map (fun i => i.value)).getD 0
    let affectedDomains := (sorted.map (fun i => getDomain newURL i.url)).eraseDups
    let affectedRegions := (sorted.map (fun i => i.region)).eraseDups
    let avgR := mathRoundAvg avgDns sorted.length
    let maxR := mathRound maxDns
    [{ priority := if maxDns > 300 then .high else .medium
       category := .dns
       title := s!"DNS 查詢過慢：平均 {avgR}ms，最高 {maxR}ms"
       description := .dns
         ⟨dnsIssues.length, avgR, maxR, affectedDomains.take 5⟩
         ((sorted.take 50).map (fun i => ⟨i.url, mathRound i.value, 0, i.region⟩))
       affectedUrls := (sorted.take 50).map (fun i => i.url)
       affectedRegions := affectedRegions }]
  else []

/-- The connection family block (`analyzer.ts:205-236`). -/
def connectFamilyRecs (regions : List RegionData) : List Recommendation :=
  let connectIssues := connectIssuesOf regions
  if connectIssues.length > 0 then
    let sorted := connectIssues.insertionSort (fun a b => b.value ≤ a.value)
    let avgConnect := issueValueSum sorted
    let maxConnect := (sorted.head?.map (fun i => i.value)).getD 0
    let affectedRegions := (sorted.map (fun i => i.region)).eraseDups
    let avgR := mathRoundAvg avgConnect sorted.length
    let maxR := mathRound maxConnect
    [{ priority := if maxConnect > 500 then .high else .medium
       category := .connection
       title := s!"TCP 連線過慢：平均 {avgR}ms，最高 {maxR}ms"
       description := .connection
         ⟨connectIssues.length, avgR, maxR, []⟩
         ((sorted.take 50).map (fun i =>
           ⟨i.url, mathRound i.value,
            match i.breakdownSsl with
            | some s => if s != 0 then mathRound s else 0
            | none => 0,
            i.region⟩))
       affectedUrls := (sorted.take 50).map (fun i => i.url)
       affectedRegions := affectedRegions }]
  else []

/-- The TTFB family block (`analyzer.ts:238-278`); its per-URL grouping
(`urlStats`) is built by the source but referenced by no output field. -/
def ttfbFamilyRecs (regions : List RegionData) : List Recommendation :=
  let ttfbIssues := ttfbIssuesOf regions
  if ttfbIssues.length > 0 then
    let sorted := ttfbIssues.insertionSort (fun a b => b.value ≤ a.value)
    let avgTtfb := issueValueSum sorted
    let maxTtfb := (sorted.head?.map (fun i => i.value)).getD 0
    let affectedRegions := (sorted.map (fun i => i.region)).eraseDups
    let avgR := mathRoundAvg avgTtfb sorted.length
    let maxR := mathRound maxTtfb
    [{ priority := if maxTtfb > 1500 then .high else .medium
       category := .server
       title := s!"伺服器回應過慢 (TTFB)：平均 {avgR}ms，最高 {maxR}ms"
       description := .ttfb
         ⟨ttfbIssues.length, avgR, maxR, []⟩
         ((sorted.take 50).map (fun i => ⟨i.url, mathRound i.value, 0, i.region⟩))
       affectedUrls := (sorted.take 50).map (fun i => i.url)
       affectedRegions := affectedRegions }]
  else []

/-- The download family block (`analyzer.ts:280-310`). -/
def downloadFamilyRecs (regions : List RegionData) : List Recommendation :=
  let downloadIssues := downloadIssuesOf regions
  if downloadIssues.length > 0 then
    let sorted := downloadIssues.insertionSort (fun a b => b.value ≤ a.value)
    let avgDownload := issueValueSum sorted
    let maxDownload := (sorted.head?.map (fun i => i.value)).getD 0
    let affectedRegions := (sorted.map (fun i => i.region)).eraseDups
    let avgR := mathRoundAvg avgDownload sorted.length
    let maxR := mathRound maxDownload
    [{ priority := if maxDownload > 3000 then .high else .medium
       category := .payload
       title := s!"下載時間過長：平均 {avgR}ms，最高 {maxR}ms"
       description := .download
         ⟨downloadIssues.length, avgR, maxR, []⟩
         ((sorted.take 50).map (fun i => ⟨i.url, mathRound i.value, 0, i.region⟩))
       affectedUrls := (sorted.take 50).map (fun i => i.url)
       affectedRegions := affectedRegions }]
  else []

/-- The region-disparity block (`analyzer.ts:312-364`): tally how often
each region is the slowest party, sort descending (stable), and when the
most-frequently-slowest region reaches three comparisons emit one
always-high-priority `cdn` recommendation carrying the rounded average
disparity and the comparison count. -/
def regionFamilyRecs (comparisons : List ComparisonResult) :
    List Recommendation :=
  if comparisons.length > 0 then
    let slowestCounts := comparisons.foldl
      (fun m comp => bumpCount comp.slowestRegion m) []
    let sortedRegions := slowestCounts.insertionSort (fun a b => b.2 ≤ a.2)
    match sortedRegions with
    | [] => []
    | (problematicRegion, count) :: _ =>
      if count ≥ 3 then
        let regionComparisons := comparisons.filter
          (fun c => c.slowestRegion == problematicRegion)
        let avgR := mathRoundAvg (compDiffSum regionComparisons)
          regionComparisons.length
        [{ priority := .high
           category := .cdn
           title := s!"{problematicRegion} 地區在 {count} 個請求中明顯較慢（平均慢 {avgR}ms）"
           description := .region
             ⟨problematicRegion, count, avgR, comparisons.length⟩
             ((regionComparisons.take 50).map (fun c =>
               ⟨c.url,
                mathRound (((c.regions.find?
                  (fun r => r.name == problematicRegion)).map
                    (fun r => r.time)).getD 0),
                mathRound (((c.regions.find?
                  (fun r => r.name == c.fastestRegion)).map
                    (fun r => r.time)).getD 0),
                c.fastestRegion,
                mathRound c.maxDiff⟩))
           affectedUrls := (regionComparisons.take 50).map (fun c => c.url)
           affectedRegions := [problematicRegion] }]
      else []
  else []

/-- `generateRecommendations` (`analyzer.ts:108`): the five family blocks,
in source push order.  (`sslIssuesOf` is collected by the source but used
by no family.) -/
def generateRecommendations (newURL : String → Except Unit URLParts)
    (regions : List RegionData) (comparisons : List ComparisonResult) :
    List Recommendation :=
  dnsFamilyRecs newURL regions ++ connectFamilyRecs regions ++
    ttfbFamilyRecs regions ++ downloadFamilyRecs regions ++
    regionFamilyRecs comparisons

/-- `analyzeHarFiles` (`analyzer.ts:372`): the main entry point. -/
structure AnalysisResult where
  regions : List RegionData
  comparisons : List ComparisonResult
  recommendations : List Recommendation
deriving DecidableEq, Repr, Inhabited

/-- `analyzeHarFiles` (`analyzer.ts:372`). -/
def analyzeHarFiles (newURL : String → Except Unit URLParts)
    (regions : List RegionData) : AnalysisResult :=
  let comparisons := compareRegions newURL regions
  let recommendations := generateRecommendations newURL regions comparisons
  ⟨regions, comparisons, recommendations⟩

/-! ## `src/lib/uxTimelineAnalyzer.ts`: API dependency chains

Only the chain-construction part of the UX timeline analyzer is embedded;
milestones, blocking resources and waiting periods are not the subject of
any claim. -/

/-- `UX_THRESHOLDS.apiGapThreshold`. -/
def apiGapThreshold : Int := 50

/-- One node of an API chain (`ApiChainNode`). -/
structure ApiChainNode where
  request : ParsedRequest
  startTime : Int
  endTime : Int
  dependsOn : Option String
deriving DecidableEq, Repr, Inhabited

/-- An API chain (`ApiChain`).  `bottleneck` is `Option` because the
source computes it with `Array.prototype.reduce` seeded by `nodes[0]`,
which is `undefined` on an empty node list (unreachable in the actual
calls, where the walk always visits at least the start request). -/
structure ApiChain where
  id : String
  nodes : List ApiChainNode
  totalDuration : Int
  chainLength : Nat
  bottleneck : Option ApiChainNode
deriving DecidableEq, Repr, Inhabited

/-- The successor search of the chain walk (`analyzer.ts`, `buildChain`,
the `allApiRequests.find(...)` call): the first not-yet-visited request of
the start-time-sorted list whose start lies in the closed window
`[currentEndTime, currentEndTime + 50]`. -/
def findNext (visited : List String) (currentEndTime : Int)
    (allApiRequests : List ParsedRequest) : Option ParsedRequest :=
  allApiRequests.find? (fun r =>
    !visited.contains r.id
      && decide (r.startTime ≥ currentEndTime)
      && decide (r.startTime ≤ currentEndTime + apiGapThreshold))

/-- The `while` loop of `buildChain`, with an explicit fuel argument.  The
JS loop terminates because every iteration marks a fresh id visited and the
successor search only returns unvisited requests drawn from
`allApiRequests`; `buildChain` passes fuel `allApiRequests.length + 1`,
which the loop can never exhaust.  Returns the node list together with the
updated visited set (the source mutates a shared `Set`). -/
def buildChainGo (allApiRequests : List ParsedRequest) :
    Nat → Option ParsedRequest → List String → Option String →
    List ApiChainNode × List String
  | 0, _, visited, _ => ([], visited)
  | _ + 1, none, visited, _ => ([], visited)
  | fuel + 1, some current, visited, prevId =>
    if visited.contains current.id then ([], visited)
    else
      let node : ApiChainNode :=
        ⟨current, current.startTime, current.startTime + current.time, prevId⟩
      let visited1 := current.id :: visited
      let currentEndTime := current.startTime + current.time
      let next := findNext visited1 currentEndTime allApiRequests
      let result := buildChainGo allApiRequests fuel next visited1 (some current.id)
      (node :: result.1, result.2)

/-- `buildChain` (`uxTimelineAnalyzer.ts`): walk the temporal-adjacency
chain from `startRequest`, then package nodes, total duration (last end −
first start, `0` on no nodes), length and bottleneck (the slowest node). -/
def buildChain (startRequest : ParsedRequest) (allApiRequests : List ParsedRequest)
    (visited : List String) : ApiChain × List String :=
  let result := buildChainGo allApiRequests (allApiRequests.length + 1)
    (some startRequest) visited none
  let nodes := result.1
  let totalDuration :=
    match nodes with
    | [] => 0
    | n0 :: rest => ((n0 :: rest).getLastD n0).endTime - n0.startTime
  let bottleneck := match nodes with
    | [] => none   -- unreachable in the calls made by `analyzeApiChains`
    | n0 :: rest => some (rest.foldl
        (fun slowest node =>
          if node.request.time > slowest.request.time then node else slowest)
        n0)
  (⟨s!"chain-{startRequest.id}", nodes, totalDuration, nodes.length, bottleneck⟩,
   result.2)

/-- `analyzeApiChains` (`uxTimelineAnalyzer.ts`): xhr/fetch requests sorted
by start time (stable), walked with a shared visited set; only chains with
more than one node are kept, sorted by descending total duration. -/
def analyzeApiChains (requests : List ParsedRequest) : List ApiChain :=
  let apiRequests := (requests.filter
      (fun r => r.type == .xhr || r.type == .fetch)).insertionSort
    (fun a b => a.startTime ≤ b.startTime)
  if apiRequests.isEmpty then []
  else
    let result := apiRequests.foldl
      (fun (acc : List ApiChain × List String) request =>
        if acc.2.contains request.id then acc
        else
          let built := buildChain request apiRequests acc.2
          if built.1.nodes.length > 1 then (acc.1 ++ [built.1], built.2)
          else (acc.1, built.2))
      ([], [])
    result.1.insertionSort (fun a b => b.totalDuration ≤ a.totalDuration)

/-! ## Spec-side definitions -/

/-- The classifier's output triple for one entry: the `(type, severity,
issues)` that `parseHarFile` assigns (`harParser.ts:127-146`). -/
def classify (entry : HarEntry) : RequestType × SeverityLevel × List String :=
  let type := getRequestType entry
  (type, getSeverity entry.time type,
   analyzeRequestIssues (normalizeTimings entry.timings))

/-- The severity function described by the spec's threshold table, with
inclusive boundaries in both directions (spec §4.2 and claim C3). -/
def specSeverity (warning critical duration : Int) : SeverityLevel :=
  if critical ≤ duration then .critical
  else if warning ≤ duration then .warning
  else .normal

/-! ## Test fixtures (concrete inputs for witnesses and counterexamples) -/

/-- An all-absent/zero timing breakdown. -/
def tNone : HarTimings := ⟨none, none, none, none, 0, 0, 0⟩

/-- A minimal HAR entry fixture. -/
def mkEntry (date url : String) (time : Int) (mime : String) : HarEntry :=
  ⟨date, time, ⟨"GET", url, []⟩, ⟨200, ⟨100, mime⟩, 100⟩, tNone⟩

/-- A `new URL` model on which every string fails to parse. -/
def newURLfail : String → Except Unit URLParts := fun _ => .error ()

/-- A `new URL` model that accepts exactly one URL. -/
def newURLone : String → Except Unit URLParts := fun s =>
  if s == "https://x.test/p?q=1" then .ok ⟨"https://x.test", "/p", "x.test"⟩
  else .error ()

/-- A date model mapping timestamp `"b"` before timestamp `"a"`. -/
def parseDateRev : String → Int := fun s => if s == "b" then 50 else 100

/-- A date model in which `"a" < "b" < "c"` chronologically. -/
def parseDateAsc : String → Int := fun s =>
  if s == "a" then 1000 else if s == "b" then 1040 else 1100

/-- A two-entry capture whose second entry started before its first. -/
def harRev : HarFile :=
  ⟨⟨[mkEntry "a" "https://x.test/1" 30 "text/html",
     mkEntry "b" "https://x.test/2" 40 "text/html"]⟩⟩

/-- A chronologically ordered two-entry capture. -/
def harAsc : HarFile :=
  ⟨⟨[mkEntry "a" "https://x.test/1" 30 "text/html",
     mkEntry "b" "https://x.test/2" 500 "application/json"]⟩⟩

/-- A minimal classified-request fixture. -/
def mkReq (id url : String) (time : Int) (ty : RequestType) (start : Int) :
    ParsedRequest :=
  ⟨id, url, "GET", 200, ty, 10, time, tNone, start, .normal, []⟩

/-- Region fixture A: one request for `u`, duration 0. -/
def regZeroA : RegionData :=
  ⟨"A", "a.har", [mkReq "A-0" "u" 0 .fetch 0], some 0, 10, 1, 0, []⟩

/-- Region fixture B: one request for `u`, duration 50. -/
def regZeroB : RegionData :=
  ⟨"B", "b.har", [mkReq "B-0" "u" 50 .fetch 0], some 50, 10, 1, 0, []⟩

/-- Region fixture C: one request for `u`, duration 400. -/
def regBigC : RegionData :=
  ⟨"C", "c.har", [mkReq "C-0" "u" 400 .fetch 0], some 400, 10, 1, 0, []⟩

/-- Region fixture D: one request for `u`, duration 120. -/
def regBigD : RegionData :=
  ⟨"D", "d.har", [mkReq "D-0" "u" 120 .fetch 0], some 120, 10, 1, 0, []⟩

/-- Two xhr requests 40ms apart: a two-node chain. -/
def reqsChained : List ParsedRequest :=
  [mkReq "r-0" "https://x.test/a" 10 .xhr 0,
   mkReq "r-1" "https://x.test/b" 20 .xhr 50]

/-- A comparison-result fixture with a given slowest region and spread. -/
def mkComp (u slowest fastest : String) (d : Int) : ComparisonResult :=
  ⟨u, [⟨slowest, 100 + d, tNone⟩, ⟨fastest, 100, tNone⟩], d, slowest, fastest⟩

/-- Three comparisons all slowest in region `"B"`. -/
def compsB : List ComparisonResult :=
  [mkComp "u1" "B" "A" 200, mkComp "u2" "B" "A" 300, mkComp "u3" "B" "A" 400]

/-- An entry with a slow TTFB phase. -/
def entrySlowWait : HarEntry :=
  ⟨"d", 100, ⟨"GET", "https://x.test/api", []⟩,
   ⟨200, ⟨10, "application/json"⟩, 10⟩, ⟨none, none, none, none, 0, 600, 0⟩⟩

/-- The same entry with an instant TTFB phase. -/
def entryFastWait : HarEntry :=
  ⟨"d", 100, ⟨"GET", "https://x.test/api", []⟩,
   ⟨200, ⟨10, "application/json"⟩, 10⟩, ⟨none, none, none, none, 0, 0, 0⟩⟩


/-! ## Invariant predicates -/

/-- Invariant of the comparator's inner map for one canonical URL: region
keys are distinct, and every entry was put there by a region that observed
a request with this canonical URL. -/
def InnerMapOK (newURL : String → Except Unit URLParts)
    (regions : List RegionData) (url : String)
    (inner : List (String × RepEntry)) : Prop :=
  (inner.map Prod.fst).Nodup ∧
  ∀ p ∈ inner, ∃ reg ∈ regions, reg.name = p.1 ∧
    ∃ req ∈ reg.requests, getBaseUrl newURL req.url = url

/-- Invariant of the comparator's URL map: every bucket satisfies
`InnerMapOK` for its URL. -/
def UrlMapOK (newURL : String → Except Unit URLParts)
    (regions : List RegionData)
    (m : List (String × List (String × RepEntry))) : Prop :=
  ∀ q ∈ m, InnerMapOK newURL regions q.1 q.2

/-! ## Helper lemmas -/

/-- Sanity check: `mathRoundAvg` is `⌊sum/count + 1/2⌋` over `ℚ`. -/
theorem mathRoundAvg_eq_floor (sum count : Int) (h : 0 < count) :
    mathRoundAvg sum count = ⌊(sum : ℚ) / (count : ℚ) + 1/2⌋ := by
  have hd : (((2 * count).toNat : ℤ)) = 2 * count := Int.toNat_of_nonneg (by omega)
  have h1 : mathRoundAvg sum count = (2 * sum + count) / (((2 * count).toNat : ℕ) : ℤ) := by
    rw [mathRoundAvg, Int.fdiv_eq_ediv _ (by omega), hd]
  rw [h1, ← Rat.floor_intCast_div_natCast]
  congr 1
  have hcQ : ((count : ℚ)) ≠ 0 := by
    exact_mod_cast (by omega : (count : ℤ) ≠ 0)
  have hdQ : (((2 * count).toNat : ℕ) : ℚ) = 2 * (count : ℚ) := by
    exact_mod_cast congrArg (fun z : ℤ => (z : ℚ)) hd
  rw [hdQ]
  push_cast
  field_simp
  ring

theorem jsMathMax_go (xs : List Int) (a : Int) :
    xs.foldl (fun acc x => some (match acc with | none => x | some b => max b x))
      (some a) = some (xs.foldl max a) := by
  induction xs generalizing a with
  | nil => rfl
  | cons x xs ih => simpa using ih (max a x)

theorem jsMathMax_cons (x : Int) (xs : List Int) :
    jsMathMax (x :: xs) = some (xs.foldl max x) := by
  simpa [jsMathMax] using jsMathMax_go xs x

theorem foldl_max_init_le (xs : List Int) (a : Int) : a ≤ xs.foldl max a := by
  induction xs generalizing a with
  | nil => simp
  | cons x xs ih => exact le_trans (le_max_left a x) (ih (max a x))

theorem foldl_max_le_of_mem (xs : List Int) (a : Int) :
    ∀ x ∈ xs, x ≤ xs.foldl max a := by
  induction xs generalizing a with
  | nil => simp
  | cons y ys ih =>
    intro x hx
    rcases List.mem_cons.mp hx with h | h
    · subst h
      exact le_trans (le_max_right a x) (foldl_max_init_le ys (max a x))
    · exact ih (max a y) x h

theorem foldl_max_attained (xs : List Int) (a : Int) :
    xs.foldl max a = a ∨ xs.foldl max a ∈ xs := by
  induction xs generalizing a with
  | nil => simp
  | cons x xs ih =>
    rcases ih (max a x) with h | h
    · rcases max_cases a x with ⟨he, _⟩ | ⟨he, _⟩
      · left; simpa [he] using h
      · right; simp only [List.foldl_cons]
        exact List.mem_cons.mpr (Or.inl (h.trans he))
    · right
      exact List.mem_cons.mpr (Or.inr h)

theorem foldl_min_le_foldl_max (xs : List Int) (a b : Int) (h : a ≤ b) :
    xs.foldl min a ≤ xs.foldl max b := by
  induction xs generalizing a b with
  | nil => simpa
  | cons x xs ih =>
    exact ih (min a x) (max b x)
      (le_trans (min_le_left a x) (le_trans h (le_max_left b x)))

theorem pairwise_sort_le {α β : Type} [LinearOrder β] (f : α → β) (l : List α) :
    List.Pairwise (fun a b => f a ≤ f b)
      (List.insertionSort (fun a b => f a ≤ f b) l) :=
  @List.sorted_insertionSort α (fun a b => f a ≤ f b) (fun _ _ => inferInstance)
    ⟨fun a b => le_total (f a) (f b)⟩
    ⟨fun _ _ _ h1 h2 => le_trans h1 h2⟩ l

theorem pairwise_sort_ge {α β : Type} [LinearOrder β] (f : α → β) (l : List α) :
    List.Pairwise (fun a b => f b ≤ f a)
      (List.insertionSort (fun a b => f b ≤ f a) l) :=
  @List.sorted_insertionSort α (fun a b => f b ≤ f a) (fun _ _ => inferInstance)
    ⟨fun a b => le_total (f b) (f a)⟩
    ⟨fun _ _ _ h1 h2 => le_trans h2 h1⟩ l

/-! ## Claim C3 -/

/-- C3: severity is computed against the type-specific threshold table
(api `{500, 1000}` for xhr/fetch; script/stylesheet/font `{500, 1500}`;
image/document/other `{1000, 3000}`) with inclusive boundaries in both
directions: `getSeverity` agrees with the spec's `specSeverity` at every
duration, so a duration exactly at the warning threshold is `warning` and
one exactly at the critical threshold is `critical`. -/
theorem getSeverity_inclusive_boundaries :
    ∀ d : Int,
      getSeverity d .xhr = specSeverity 500 1000 d ∧
      getSeverity d .fetch = specSeverity 500 1000 d ∧
      getSeverity d .script = specSeverity 500 1500 d ∧
      getSeverity d .stylesheet = specSeverity 500 1500 d ∧
      getSeverity d .font = specSeverity 500 1500 d ∧
      getSeverity d .image = specSeverity 1000 3000 d ∧
      getSeverity d .document = specSeverity 1000 3000 d ∧
      getSeverity d .other = specSeverity 1000 3000 d := by
  intro d
  refine ⟨?_, ?_, ?_, ?_, ?_, ?_, ?_, ?_⟩ <;>
    simp [getSeverity, specSeverity, thresholdsTable, thresholdsApi, ge_iff_le]

/-! ## Claim C8 -/

/-- C8 counterexample: two entries with identical MIME type, URL, duration
and headers but different phase timing breakdowns receive different issue
lists, so `(MIME type, URL, duration, headers)` alone does not determine
the classification triple. -/
theorem classifier_inputs_counterexample :
    entrySlowWait.response.content.mimeType = entryFastWait.response.content.mimeType ∧
    entrySlowWait.request.url = entryFastWait.request.url ∧
    entrySlowWait.time = entryFastWait.time ∧
    entrySlowWait.request.headers = entryFastWait.request.headers ∧
    classify entrySlowWait ≠ classify entryFastWait := by
  refine ⟨rfl, rfl, rfl, rfl, ?_⟩
  decide

/-- C8 (amended): the classifier is a pure function of the MIME type, URL,
headers, total duration and phase timing breakdown — two entries identical
in all five yield the same `(type, severity, issues)` triple. -/
theorem classifier_deterministic (e1 e2 : HarEntry)
    (hmime : e1.response.content.mimeType = e2.response.content.mimeType)
    (hurl : e1.request.url = e2.request.url)
    (hheaders : e1.request.headers = e2.request.headers)
    (htime : e1.time = e2.time)
    (htimings : e1.timings = e2.timings) :
    classify e1 = classify e2 := by
  have ht : getRequestType e1 = getRequestType e2 := by
    unfold getRequestType
    rw [hmime, hurl, hheaders]
  unfold classify
  rw [ht, htime, htimings]

/-- C8 witness: the determinism theorem applied to a concrete entry pair. -/
theorem classifier_deterministic_witness :
    classify entrySlowWait =
      classify ⟨"e", 100, ⟨"POST", "https://x.test/api", []⟩,
        ⟨500, ⟨99, "application/json"⟩, -1⟩,
        ⟨none, none, none, none, 0, 600, 0⟩⟩ :=
  classifier_deterministic _ _ rfl rfl rfl rfl rfl

/-! ## Claim C9 -/

/-- C9: URL canonicalisation never fails: when `new URL` throws (modelled
by `Except.error`), `getBaseUrl` returns the input string unchanged — so
two unparseable URLs share a canonical key exactly when they are equal as
strings — and when it parses, the canonical key is origin ++ path. -/
theorem getBaseUrl_total_fallback :
    ∀ (newURL : String → Except Unit URLParts) (url : String),
      (∀ e, newURL url = .error e → getBaseUrl newURL url = url) ∧
      (∀ p, newURL url = .ok p →
        getBaseUrl newURL url = p.origin ++ p.pathname) ∧
      (∀ url2, newURL url = .error () → newURL url2 = .error () →
        (getBaseUrl newURL url = getBaseUrl newURL url2 ↔ url = url2)) := by
  intro newURL url
  refine ⟨?_, ?_, ?_⟩
  · intro e he
    unfold getBaseUrl
    rw [he]
  · intro p hp
    unfold getBaseUrl
    rw [hp]
  · intro url2 h1 h2
    unfold getBaseUrl
    rw [h1, h2]

/-- C9 witness: the canonicalisation theorem applied to one parseable and
two unparseable concrete URLs. -/
theorem getBaseUrl_total_fallback_witness :
    newURLone "::nota url::" = .error () ∧
    getBaseUrl newURLone "::nota url::" = "::nota url::" ∧
    newURLone "https://x.test/p?q=1" = .ok ⟨"https://x.test", "/p", "x.test"⟩ ∧
    getBaseUrl newURLone "https://x.test/p?q=1" = "https://x.test" ++ "/p" ∧
    (getBaseUrl newURLone "::nota url::" = getBaseUrl newURLone "::other::" ↔
      "::nota url::" = "::other::") := by
  refine ⟨rfl, ?_, rfl, ?_, ?_⟩
  · exact (getBaseUrl_total_fallback newURLone "::nota url::").1 () rfl
  · exact (getBaseUrl_total_fallback newURLone "https://x.test/p?q=1").2.1
      ⟨"https://x.test", "/p", "x.test"⟩ rfl
  · exact (getBaseUrl_total_fallback newURLone "::nota url::").2.2
      "::other::" rfl rfl

/-! ## Claim C1 -/

/-- The `Math.max`-based aggregate over `startTime + duration` on a
nonempty request list: the value is attained and bounds every request. -/
theorem jsMathMax_spec (l : List ParsedRequest) (hne : l ≠ []) :
    ∃ m, jsMathMax (l.map (fun r => r.startTime + r.time)) = some m ∧
      (∀ r ∈ l, r.startTime + r.time ≤ m) ∧
      (∃ r ∈ l, m = r.startTime + r.time) := by
  cases l with
  | nil => contradiction
  | cons q0 qs =>
    rw [List.map_cons, jsMathMax_cons]
    refine ⟨(qs.map fun r => r.startTime + r.time).foldl max
      (q0.startTime + q0.time), rfl, ?_, ?_⟩
    · intro r hr
      rcases List.mem_cons.mp hr with h | h
      · subst h
        exact foldl_max_init_le _ _
      · exact foldl_max_le_of_mem _ _ _ (List.mem_map_of_mem _ h)
    · rcases foldl_max_attained (qs.map fun r => r.startTime + r.time)
        (q0.startTime + q0.time) with h | h
      · exact ⟨q0, List.mem_cons_self _ _, h⟩
      · obtain ⟨r, hr, hfr⟩ := List.mem_map.mp h
        exact ⟨r, List.mem_cons_of_mem _ hr, hfr.symm⟩

/-- C1 counterexample: the parser's base time is the *first* entry of the
document, not the earliest one; on a capture whose second entry started
50ms before its first, the start offsets are `[0, -50]`, so `startTime`
can be negative and the region's minimum start offset is not `0`. -/
theorem startTime_nonneg_counterexample :
    (parseHarFile parseDateRev harRev "r" "f").toOption.map
        (fun rd => rd.requests.map (fun r => r.startTime)) = some [0, -50] ∧
    ((-50 : Int) < 0) := by
  exact ⟨rfl, by decide⟩

/-- C1 (amended): `startTime` is the offset from the *first* entry in
document order: the first request's offset is always `0`, and when the raw
entries are chronologically nondecreasing (as browser-exported HAR files
are), every request's offset is `≥ 0` — in that case the minimum offset is
attained at the first request with value `0`. -/
theorem startTime_base_relative (parseDate : String → Int) (har : HarFile)
    (regionName fileName : String) (rd : RegionData)
    (hok : parseHarFile parseDate har regionName fileName = .ok rd) :
    (rd.requests.head?.map (fun r => r.startTime)) = some 0 ∧
    (List.Pairwise
        (fun a b => parseDate a.startedDateTime ≤ parseDate b.startedDateTime)
        har.log.entries →
      ∀ r ∈ rd.requests, 0 ≤ r.startTime) := by
  cases hE : har.log.entries with
  | nil => simp [parseHarFile, hE] at hok
  | cons e0 rest =>
    simp only [parseHarFile, hE, Except.ok.injEq] at hok
    subst hok
    constructor
    · simp [List.head?_map, List.enum_cons, sub_self]
    · intro hsorted r hr
      simp only [List.mem_map] at hr
      obtain ⟨p, hp, hfr⟩ := hr
      have hmem : p.2 ∈ e0 :: rest := by
        have := List.mem_map_of_mem Prod.snd hp
        simpa [List.enum_map_snd] using this
      have hbase : parseDate e0.startedDateTime ≤ parseDate p.2.startedDateTime := by
        rcases List.mem_cons.mp hmem with h | h
        · rw [h]
        · exact (List.pairwise_cons.mp hsorted).1 p.2 h
      have : r.startTime =
          parseDate p.2.startedDateTime - parseDate e0.startedDateTime := by
        rw [← hfr]
      omega

/-- C1 witness: the amended theorem applied to a chronologically ordered
concrete capture. -/
theorem startTime_base_relative_witness :
    ((parseHarFile parseDateAsc harAsc "w" "w.har").toOption.getD
        default).requests.head?.map (fun r => r.startTime) = some 0 ∧
    0 ≤ (((parseHarFile parseDateAsc harAsc "w" "w.har").toOption.getD
        default).requests.getLastD default).startTime := by
  have h := startTime_base_relative parseDateAsc harAsc "w" "w.har"
    ((parseHarFile parseDateAsc harAsc "w" "w.har").toOption.getD default) rfl
  exact ⟨h.1, h.2 (by decide) _ (by decide)⟩

/-! ## Claim C4 -/

/-- C4 counterexample: the aggregate the parser uses for `totalTime` is
`Math.max(...)`, whose value on an empty request list is `-Infinity`
(`none` in the model), not `0`. -/
theorem totalTime_empty_counterexample :
    jsMathMax (([] : List ParsedRequest).map (fun r => r.startTime + r.time)) = none ∧
    jsMathMax (([] : List ParsedRequest).map (fun r => r.startTime + r.time)) ≠ some 0 := by
  exact ⟨rfl, by decide⟩

/-- C4 (amended): the parser rejects captures with an empty entry list, so
every `RegionData` it produces has a nonempty request list, and its
`totalTime` is the attained maximum of `startTime + duration` over the
requests; the `Math.max` aggregate itself never throws, but on an empty
list it evaluates to `-Infinity`, not `0` — that case is unreachable. -/
theorem totalTime_attained_max (parseDate : String → Int) (har : HarFile)
    (regionName fileName : String) (rd : RegionData)
    (hok : parseHarFile parseDate har regionName fileName = .ok rd) :
    rd.requests ≠ [] ∧
    ∃ m : Int, rd.totalTime = some m ∧
      (∀ r ∈ rd.requests, r.startTime + r.time ≤ m) ∧
      (∃ r ∈ rd.requests, m = r.startTime + r.time) := by
  cases hE : har.log.entries with
  | nil => simp [parseHarFile, hE] at hok
  | cons e0 rest =>
    simp only [parseHarFile, hE, Except.ok.injEq] at hok
    subst hok
    constructor
    · simp [List.enum_cons]
    · exact jsMathMax_spec _ (by simp [List.enum_cons])

/-- C4 witness: the amended theorem applied to a concrete capture; its two
requests end at 30 and 540, and `totalTime` is the attained `some 540`. -/
theorem totalTime_attained_max_witness :
    ((parseHarFile parseDateAsc harAsc "v" "v.har").toOption.getD
        default).requests ≠ [] ∧
    ((parseHarFile parseDateAsc harAsc "v" "v.har").toOption.getD
        default).totalTime = some 540 := by
  have h := totalTime_attained_max parseDateAsc harAsc "v" "v.har"
    ((parseHarFile parseDateAsc harAsc "v" "v.har").toOption.getD default) rfl
  exact ⟨h.1, by decide⟩

/-! ## Claim C2 -/

/-- Every comparison `compareUrl` emits has a strictly positive spread:
the `>100ms` branch forces it, the `minTime = 0` branch of the ratio test
is exactly `0 < maxDiff` (the `0/0 = NaN` case fails every comparison),
and a zero spread makes the exact ratio `0`, which is not `> 1/2`. -/
theorem compareUrl_some_pos (url : String) (inner : List (String × RepEntry))
    (c : ComparisonResult) (h : compareUrl url inner = some c) :
    0 < c.maxDiff := by
  simp only [compareUrl] at h
  split at h
  · exact absurd h (by simp)
  · split at h
    · exact absurd h (by simp)
    next t ts hts =>
      split at h
      next hcond =>
        have hc := Option.some.inj h
        subst hc
        simp only
        have hminmax : ts.foldl min t ≤ ts.foldl max t :=
          foldl_min_le_foldl_max ts t t le_rfl
        rcases Bool.or_eq_true_iff.mp hcond with h1 | h2
        · have := of_decide_eq_true h1
          omega
        · simp only [spreadRatioGtHalf] at h2
          split at h2
          · have := of_decide_eq_true h2
            omega
          · have hq := of_decide_eq_true h2
            by_contra hle
            have h0 : ts.foldl max t - ts.foldl min t = 0 := by omega
            rw [h0] at hq
            norm_num at hq
      next => exact absurd h (by simp)

/-- C2 counterexample: a canonical URL whose per-region representative
durations are `0` and `50` has minimum `0` and spread `50 ≤ 100ms`; the
JS ratio `50 / 0` is `+Infinity > 0.5`, so the comparator *includes* this
degenerate case in its output instead of excluding it. -/
theorem degenerate_min_included_counterexample :
    (compareRegions newURLfail [regZeroA, regZeroB]).map
        (fun c => (c.url, c.maxDiff, c.fastestRegion)) = [("u", 50, "A")] ∧
    (compareRegions newURLfail [regZeroA, regZeroB]).map
        (fun c => c.regions.map (fun e => e.time)) = [[0, 50]] := by
  exact ⟨rfl, rfl⟩

/-- C2 (amended): the `NaN` case does not propagate — a URL whose
durations are all equal (zero spread, including the all-zero `0/0 = NaN`
case) is never emitted, and every emitted `ComparisonResult` carries a
finite, strictly positive spread; but a zero minimum with positive spread
`≤ 100ms` is *included* via the `+Infinity > 0.5` comparison rather than
excluded (no `Infinity` or `NaN` value appears in the output, which only
records the finite absolute spread). -/
theorem compareRegions_pos_spread :
    ∀ (newURL : String → Except Unit URLParts) (regions : List RegionData)
      (c : ComparisonResult), c ∈ compareRegions newURL regions →
      0 < c.maxDiff := by
  intro newURL regions c hc
  simp only [compareRegions] at hc
  split at hc
  · simp at hc
  · rw [List.mem_insertionSort] at hc
    obtain ⟨p, _, hcu⟩ := List.mem_filterMap.mp hc
    exact compareUrl_some_pos _ _ _ hcu

/-- C2 witness: the positive-spread theorem applied to a concrete
comparator run. -/
theorem compareRegions_pos_spread_witness :
    0 < ((compareRegions newURLfail [regBigC, regBigD]).headD default).maxDiff :=
  compareRegions_pos_spread newURLfail [regBigC, regBigD] _ (by decide)

/-! ## Claim C6 -/

theorem updateRegionMap_keys (rn : String) (req : ParsedRequest)
    (l : List (String × RepEntry)) :
    (updateRegionMap rn req l).map Prod.fst =
      if rn ∈ l.map Prod.fst then l.map Prod.fst
      else l.map Prod.fst ++ [rn] := by
  induction l with
  | nil => simp [updateRegionMap]
  | cons p rest ih =>
    obtain ⟨pn, pe⟩ := p
    by_cases h : pn = rn
    · subst h
      simp only [updateRegionMap, beq_self_eq_true, if_true]
      split <;> simp
    · have hb : (pn == rn) = false := beq_eq_false_iff_ne.mpr h
      by_cases hm : rn ∈ rest.map Prod.fst <;>
        simp [updateRegionMap, hb, ih, hm, Ne.symm h]

theorem updateRegionMap_mem (rn : String) (req : ParsedRequest)
    (l : List (String × RepEntry)) :
    ∀ p ∈ updateRegionMap rn req l, p ∈ l ∨ p.1 = rn := by
  induction l with
  | nil =>
    intro p hp
    simp [updateRegionMap] at hp
    right
    rw [hp]
  | cons q rest ih =>
    obtain ⟨qn, qe⟩ := q
    intro p hp
    simp only [updateRegionMap] at hp
    split at hp
    next hqn =>
      have hqn2 : qn = rn := by simpa using hqn
      split at hp
      · rcases List.mem_cons.mp hp with h1 | h1
        · right
          rw [h1]
          exact hqn2
        · exact Or.inl (List.mem_cons_of_mem _ h1)
      · rcases List.mem_cons.mp hp with h1 | h1
        · right
          rw [h1]
          exact hqn2
        · exact Or.inl (List.mem_cons_of_mem _ h1)
    next =>
      rcases List.mem_cons.mp hp with h1 | h1
      · exact Or.inl (h1 ▸ List.mem_cons_self _ _)
      · rcases ih p h1 with h2 | h2
        · exact Or.inl (List.mem_cons_of_mem _ h2)
        · exact Or.inr h2

theorem innerMapOK_update (newURL : String → Except Unit URLParts)
    (regions : List RegionData) (url : String)
    (inner : List (String × RepEntry)) (reg : RegionData) (req : ParsedRequest)
    (hOK : InnerMapOK newURL regions url inner)
    (hreg : reg ∈ regions) (hreq : req ∈ reg.requests)
    (hurl : getBaseUrl newURL req.url = url) :
    InnerMapOK newURL regions url (updateRegionMap reg.name req inner) := by
  constructor
  · rw [updateRegionMap_keys]
    split
    · exact hOK.1
    next hnot =>
      rw [List.nodup_append]
      refine ⟨hOK.1, List.nodup_singleton _, fun a ha hb => ?_⟩
      rw [List.mem_singleton.mp hb] at ha
      exact hnot ha
  · intro p hp
    rcases updateRegionMap_mem _ _ _ p hp with h | h
    · exact hOK.2 p h
    · exact ⟨reg, hreg, h.symm, req, hreq, hurl⟩

theorem urlMapOK_update (newURL : String → Except Unit URLParts)
    (regions : List RegionData) (reg : RegionData) (req : ParsedRequest)
    (hreg : reg ∈ regions) (hreq : req ∈ reg.requests) :
    ∀ m, UrlMapOK newURL regions m →
      UrlMapOK newURL regions (updateUrlMap newURL reg.name req m) := by
  intro m
  induction m with
  | nil =>
    intro _ q hq
    simp only [updateUrlMap, List.mem_singleton] at hq
    subst hq
    exact innerMapOK_update newURL regions _ [] reg req
      ⟨List.nodup_nil, by simp⟩ hreg hreq rfl
  | cons p rest ih =>
    intro hOK q hq
    obtain ⟨u, inner⟩ := p
    simp only [updateUrlMap] at hq
    split at hq
    next heq =>
      rcases List.mem_cons.mp hq with h | h
      · subst h
        have hub : u = getBaseUrl newURL req.url := by simpa using heq
        exact innerMapOK_update newURL regions _ _ reg req
          (hOK _ (List.mem_cons_self _ _)) hreg hreq hub.symm
      · exact hOK _ (List.mem_cons_of_mem _ h)
    next =>
      rcases List.mem_cons.mp hq with h | h
      · subst h
        exact hOK _ (List.mem_cons_self _ _)
      · exact ih (fun q' hq' => hOK q' (List.mem_cons_of_mem _ hq')) q h

theorem urlMapOK_build (newURL : String → Except Unit URLParts)
    (regions : List RegionData) :
    UrlMapOK newURL regions (buildUrlMap newURL regions) := by
  suffices h : ∀ (l : List RegionData), (∀ reg ∈ l, reg ∈ regions) →
      ∀ m, UrlMapOK newURL regions m →
        UrlMapOK newURL regions (l.foldl
          (fun m region => region.requests.foldl
            (fun m request => updateUrlMap newURL region.name request m) m) m) by
    exact h regions (fun _ h' => h') [] (fun q hq => absurd hq (List.not_mem_nil q))
  intro l
  induction l with
  | nil =>
    intro _ m hm
    simpa using hm
  | cons reg rl ih =>
    intro hsub m hm
    simp only [List.foldl_cons]
    refine ih (fun r hr => hsub r (List.mem_cons_of_mem _ hr)) _ ?_
    have hreg : reg ∈ regions := hsub reg (List.mem_cons_self _ _)
    suffices h2 : ∀ (rl2 : List ParsedRequest), (∀ r ∈ rl2, r ∈ reg.requests) →
        ∀ m2, UrlMapOK newURL regions m2 →
          UrlMapOK newURL regions (rl2.foldl
            (fun m request => updateUrlMap newURL reg.name request m) m2) by
      exact h2 reg.requests (fun _ h' => h') m hm
    intro rl2
    induction rl2 with
    | nil =>
      intro _ m2 hm2
      simpa using hm2
    | cons r rl3 ih3 =>
      intro hsub2 m2 hm2
      simp only [List.foldl_cons]
      exact ih3 (fun r' hr' => hsub2 r' (List.mem_cons_of_mem _ hr'))
        _ (urlMapOK_update newURL regions reg r hreg
            (hsub2 r (List.mem_cons_self _ _)) m2 hm2)

theorem compareUrl_some_regions (url : String) (inner : List (String × RepEntry))
    (c : ComparisonResult) (h : compareUrl url inner = some c) :
    c.url = url ∧
    c.regions = inner.map (fun p => ⟨p.1, p.2.time, p.2.timings⟩) ∧
    2 ≤ inner.length := by
  simp only [compareUrl] at h
  split at h
  · exact absurd h (by simp)
  next hge =>
    split at h
    · exact absurd h (by simp)
    · split at h
      · have hc := Option.some.inj h
        subst hc
        exact ⟨rfl, rfl, by omega⟩
      · exact absurd h (by simp)

/-- C6: the comparator never emits a `ComparisonResult` with fewer than two
region entries; the entries carry pairwise-distinct region names, each
belonging to a supplied region that observed the comparison's canonical
URL (so a URL seen in a single region yields no result); and with fewer
than two supplied regions the comparator returns `[]` rather than failing. -/
theorem compareRegions_at_least_two_regions :
    ∀ (newURL : String → Except Unit URLParts) (regions : List RegionData),
      (regions.length < 2 → compareRegions newURL regions = []) ∧
      ∀ c ∈ compareRegions newURL regions,
        2 ≤ c.regions.length ∧
        (c.regions.map (fun e => e.name)).Nodup ∧
        ∀ e ∈ c.regions, ∃ reg ∈ regions, reg.name = e.name ∧
          ∃ req ∈ reg.requests, getBaseUrl newURL req.url = c.url := by
  intro newURL regions
  constructor
  · intro hlt
    simp [compareRegions, hlt]
  · intro c hc
    simp only [compareRegions] at hc
    split at hc
    · exact absurd hc (by simp)
    · rw [List.mem_insertionSort] at hc
      obtain ⟨p, hp, hcu⟩ := List.mem_filterMap.mp hc
      have hOK := urlMapOK_build newURL regions p hp
      obtain ⟨hcurl, hcregs, hlen⟩ := compareUrl_some_regions _ _ _ hcu
      refine ⟨?_, ?_, ?_⟩
      · rw [hcregs, List.length_map]
        exact hlen
      · rw [hcregs, List.map_map]
        exact hOK.1
      · intro e he
        rw [hcregs] at he
        obtain ⟨p2, hp2, he2⟩ := List.mem_map.mp he
        obtain ⟨reg, hreg, hname, req, hreq, hurl⟩ := hOK.2 p2 hp2
        refine ⟨reg, hreg, ?_, req, hreq, ?_⟩
        · rw [hname, ← he2]
        · rw [hurl, hcurl]

/-- C6 witness: the comparator theorem applied to a one-region run (empty
output) and to a concrete two-region run (a comparison with two entries). -/
theorem compareRegions_at_least_two_regions_witness :
    compareRegions newURLfail [regBigD] = [] ∧
    2 ≤ ((compareRegions newURLfail [regBigC, regBigD]).headD
      default).regions.length := by
  refine ⟨(compareRegions_at_least_two_regions newURLfail [regBigD]).1 (by decide),
    ((compareRegions_at_least_two_regions newURLfail
      [regBigC, regBigD]).2 _ (by decide)).1⟩

/-! ## Claims C5 and C10: chain-construction lemmas -/

theorem foldl_preserve {α β : Type} (step : β → α → β) (Inv : β → Prop)
    (hstep : ∀ b a, Inv b → Inv (step b a)) :
    ∀ (l : List α) (b : β), Inv b → Inv (l.foldl step b) := by
  intro l
  induction l with
  | nil =>
    intro b h
    simpa using h
  | cons a l ih =>
    intro b h
    exact ih _ (hstep b a h)

theorem findNext_some (visited : List String) (endT : Int)
    (alls : List ParsedRequest) (r : ParsedRequest)
    (h : findNext visited endT alls = some r) :
    r ∈ alls ∧ r.id ∉ visited ∧ endT ≤ r.startTime ∧
      r.startTime ≤ endT + apiGapThreshold := by
  have hm := List.mem_of_find?_eq_some h
  have hp := List.find?_some h
  simp only [Bool.and_eq_true, Bool.not_eq_true', decide_eq_true_eq] at hp
  refine ⟨hm, ?_, hp.1.2, hp.2⟩
  simpa using hp.1.1

theorem findNext_min (visited : List String) (endT : Int) :
    ∀ (alls : List ParsedRequest) (r : ParsedRequest),
      List.Pairwise (fun a b => a.startTime ≤ b.startTime) alls →
      findNext visited endT alls = some r →
      ∀ r' ∈ alls, r'.id ∉ visited → endT ≤ r'.startTime →
        r'.startTime ≤ endT + apiGapThreshold → r.startTime ≤ r'.startTime := by
  intro alls
  induction alls with
  | nil =>
    intro r _ h
    simp [findNext] at h
  | cons a l ih =>
    intro r hsort h r' hr' hv he1 he2
    rw [findNext, List.find?_cons] at h
    split at h
    next =>
      have ha : a = r := Option.some.inj h
      subst ha
      rcases List.mem_cons.mp hr' with h1 | h1
      · rw [h1]
      · exact (List.pairwise_cons.mp hsort).1 r' h1
    next hpa =>
      rcases List.mem_cons.mp hr' with h1 | h1
      · exfalso
        rw [h1] at hv he1 he2
        simp only [Bool.and_eq_true, Bool.not_eq_true', decide_eq_true_eq,
          Bool.and_eq_false_imp] at hpa
        have hfalse := hpa ⟨by simpa using hv, he1⟩
        rw [decide_eq_false_iff_not] at hfalse
        exact hfalse he2
      · exact ih r (List.pairwise_cons.mp hsort).2 h r' h1 hv he1 he2

theorem buildChainGo_visited (alls : List ParsedRequest) :
    ∀ (fuel : Nat) (ocur : Option ParsedRequest) (visited : List String)
      (prevId : Option String),
      (∀ s ∈ visited, s ∈ (buildChainGo alls fuel ocur visited prevId).2) ∧
      ((buildChainGo alls fuel ocur visited prevId).1.map
        (fun n => n.request.id)).Nodup ∧
      (∀ i ∈ (buildChainGo alls fuel ocur visited prevId).1.map
          (fun n => n.request.id),
        i ∉ visited ∧ i ∈ (buildChainGo alls fuel ocur visited prevId).2) := by
  intro fuel
  induction fuel with
  | zero =>
    intro ocur visited prevId
    simp [buildChainGo]
  | succ m ih =>
    intro ocur visited prevId
    cases ocur with
    | none => simp [buildChainGo]
    | some cur =>
      simp only [buildChainGo]
      split
      · simp
      next hcont =>
        have hnv : cur.id ∉ visited := by simpa using hcont
        have ihh := ih (findNext (cur.id :: visited)
          (cur.startTime + cur.time) alls) (cur.id :: visited) (some cur.id)
        refine ⟨?_, ?_, ?_⟩
        · intro s hs
          exact ihh.1 s (List.mem_cons_of_mem _ hs)
        · simp only [List.map_cons, List.nodup_cons]
          refine ⟨fun hmem => ?_, ihh.2.1⟩
          exact (ihh.2.2 _ hmem).1 (List.mem_cons_self _ _)
        · intro i hi
          simp only [List.map_cons, List.mem_cons] at hi
          rcases hi with hi | hi
          · subst hi
            exact ⟨hnv, ihh.1 _ (List.mem_cons_self _ _)⟩
          · obtain ⟨h1, h2⟩ := ihh.2.2 i hi
            exact ⟨fun hmem => h1 (List.mem_cons_of_mem _ hmem), h2⟩

theorem buildChainGo_window (alls : List ParsedRequest) :
    ∀ (fuel : Nat) (ocur : Option ParsedRequest) (visited : List String)
      (prevId : Option String),
      List.Chain' (fun a b => a.endTime ≤ b.startTime ∧
          b.startTime ≤ a.endTime + apiGapThreshold)
        (buildChainGo alls fuel ocur visited prevId).1 ∧
      (∀ n0, (buildChainGo alls fuel ocur visited prevId).1.head? = some n0 →
        ∃ cur, ocur = some cur ∧ n0.startTime = cur.startTime ∧
          n0.endTime = cur.startTime + cur.time) := by
  intro fuel
  induction fuel with
  | zero =>
    intro ocur visited prevId
    simp [buildChainGo]
  | succ m ih =>
    intro ocur visited prevId
    cases ocur with
    | none => simp [buildChainGo]
    | some cur =>
      simp only [buildChainGo]
      split
      · simp
      next hcont =>
        have ihh := ih (findNext (cur.id :: visited)
          (cur.startTime + cur.time) alls) (cur.id :: visited) (some cur.id)
        constructor
        · rw [List.chain'_cons']
          refine ⟨?_, ihh.1⟩
          intro y hy
          obtain ⟨nxt, hnxt, hys, _⟩ := ihh.2 y hy
          obtain ⟨_, _, hlo, hhi⟩ := findNext_some _ _ _ _ hnxt
          constructor
          · rw [hys]
            exact hlo
          · rw [hys]
            exact hhi
        · intro n0 h0
          rw [List.head?_cons] at h0
          have := Option.some.inj h0
          subst this
          exact ⟨cur, rfl, rfl, rfl⟩

theorem buildChain_shape (startRequest : ParsedRequest)
    (alls : List ParsedRequest) (visited : List String) :
    List.Chain' (fun a b => a.endTime ≤ b.startTime ∧
        b.startTime ≤ a.endTime + apiGapThreshold)
      (buildChain startRequest alls visited).1.nodes ∧
    ((buildChain startRequest alls visited).1.nodes ≠ [] →
      ∃ n0 nl, (buildChain startRequest alls visited).1.nodes.head? = some n0 ∧
        (buildChain startRequest alls visited).1.nodes.getLast? = some nl ∧
        (buildChain startRequest alls visited).1.totalDuration =
          nl.endTime - n0.startTime) := by
  simp only [buildChain]
  cases hN : (buildChainGo alls (alls.length + 1) (some startRequest)
      visited none).1 with
  | nil =>
    refine ⟨by simp, fun hne => absurd rfl hne⟩
  | cons n0 rest =>
    constructor
    · have := (buildChainGo_window alls (alls.length + 1) (some startRequest)
        visited none).1
      rw [hN] at this
      exact this
    · intro _
      rcases hL : (n0 :: rest).getLast? with _ | nl
      · rw [List.getLast?_eq_none_iff] at hL
        exact absurd hL (by simp)
      · refine ⟨n0, nl, rfl, rfl, ?_⟩
        simp only [List.getLastD_eq_getLast?, hL, Option.getD_some]

theorem analyzeApiChains_shape (requests : List ParsedRequest) :
    ∀ c ∈ analyzeApiChains requests,
      1 < c.nodes.length ∧
      List.Chain' (fun a b => a.endTime ≤ b.startTime ∧
        b.startTime ≤ a.endTime + apiGapThreshold) c.nodes ∧
      ∃ n0 nl, c.nodes.head? = some n0 ∧ c.nodes.getLast? = some nl ∧
        c.totalDuration = nl.endTime - n0.startTime := by
  intro c hc
  simp only [analyzeApiChains] at hc
  split at hc
  · exact absurd hc (by simp)
  · rw [List.mem_insertionSort] at hc
    set apiRequests := ((requests.filter
        (fun r => r.type == .xhr || r.type == .fetch)).insertionSort
      (fun a b => a.startTime ≤ b.startTime)) with hapi
    have hfold := foldl_preserve
      (fun (acc : List ApiChain × List String) request =>
        if acc.2.contains request.id then acc
        else
          let built := buildChain request apiRequests acc.2
          if built.1.nodes.length > 1 then (acc.1 ++ [built.1], built.2)
          else (acc.1, built.2))
      (fun acc => ∀ c' ∈ acc.1,
        1 < c'.nodes.length ∧
        List.Chain' (fun a b => a.endTime ≤ b.startTime ∧
          b.startTime ≤ a.endTime + apiGapThreshold) c'.nodes ∧
        ∃ n0 nl, c'.nodes.head? = some n0 ∧ c'.nodes.getLast? = some nl ∧
          c'.totalDuration = nl.endTime - n0.startTime)
      ?_ apiRequests ([], []) (by simp)
    · exact hfold c hc
    · intro acc request hInv
      dsimp only
      split
      · exact hInv
      · split
        next hlen =>
          intro c' hc'
          rcases List.mem_append.mp hc' with h | h
          · exact hInv c' h
          · rw [List.mem_singleton.mp h]
            have hs := buildChain_shape request apiRequests acc.2
            refine ⟨hlen, hs.1, hs.2 ?_⟩
            intro hnil
            rw [hnil] at hlen
            simp at hlen
        · exact fun c' hc' => hInv c' hc'

/-- C5: API-chain construction — the xhr/fetch requests are considered
sorted by start time and each chain is grown by repeatedly appending the
earliest not-yet-visited request whose start time lies in the closed
window `[chain end, chain end + 50ms]` (`findNext` returns an in-window,
unvisited element of minimal start time when the list is sorted);
consecutive nodes of every reported chain respect that window; a chain is
reported only when it has more than one node; and each reported chain's
total duration is the last node's end time minus the first node's start
time. -/
theorem apiChains_construction :
    (∀ (requests : List ParsedRequest) (c : ApiChain),
      c ∈ analyzeApiChains requests →
        1 < c.nodes.length ∧
        List.Chain' (fun a b => a.endTime ≤ b.startTime ∧
          b.startTime ≤ a.endTime + apiGapThreshold) c.nodes ∧
        ∃ n0 nl, c.nodes.head? = some n0 ∧ c.nodes.getLast? = some nl ∧
          c.totalDuration = nl.endTime - n0.startTime) ∧
    (∀ (visited : List String) (endT : Int) (alls : List ParsedRequest)
        (r : ParsedRequest),
      List.Pairwise (fun a b => a.startTime ≤ b.startTime) alls →
      findNext visited endT alls = some r →
        (r ∈ alls ∧ r.id ∉ visited ∧ endT ≤ r.startTime ∧
          r.startTime ≤ endT + apiGapThreshold) ∧
        ∀ r' ∈ alls, r'.id ∉ visited → endT ≤ r'.startTime →
          r'.startTime ≤ endT + apiGapThreshold →
          r.startTime ≤ r'.startTime) := by
  constructor
  · intro requests c hc
    exact analyzeApiChains_shape requests c hc
  · intro visited endT alls r hsort hfind
    exact ⟨findNext_some visited endT alls r hfind,
      findNext_min visited endT alls r hsort hfind⟩

/-- C5 witness: the construction theorem applied to a concrete pair of xhr
requests 40ms apart (one two-node chain of total duration 70ms) and to a
concrete successor search. -/
theorem apiChains_construction_witness :
    1 < ((analyzeApiChains reqsChained).headD default).nodes.length ∧
    ((analyzeApiChains reqsChained).headD default).totalDuration = 70 ∧
    ((findNext [] 10 reqsChained).getD default).startTime ≤
      (reqsChained.getLastD default).startTime := by
  refine ⟨(apiChains_construction.1 reqsChained _ (by decide)).1, by decide, ?_⟩
  exact ((apiChains_construction.2 [] 10 reqsChained
      ((findNext [] 10 reqsChained).getD default) (by decide) rfl).2
    (reqsChained.getLastD default) (by decide) (by decide) (by decide) (by decide))

theorem chains_fold_disjoint (apiRequests : List ParsedRequest) :
    ∀ (l : List ParsedRequest) (acc : List ApiChain × List String),
      ((acc.1.map (fun c => c.nodes.map (fun n => n.request.id))).flatten.Nodup ∧
        ∀ i ∈ (acc.1.map (fun c => c.nodes.map (fun n => n.request.id))).flatten,
          i ∈ acc.2) →
      (((l.foldl
          (fun (acc : List ApiChain × List String) request =>
            if acc.2.contains request.id then acc
            else
              let built := buildChain request apiRequests acc.2
              if built.1.nodes.length > 1 then (acc.1 ++ [built.1], built.2)
              else (acc.1, built.2))
          acc).1.map (fun c => c.nodes.map (fun n => n.request.id))).flatten.Nodup ∧
        ∀ i ∈ ((l.foldl
          (fun (acc : List ApiChain × List String) request =>
            if acc.2.contains request.id then acc
            else
              let built := buildChain request apiRequests acc.2
              if built.1.nodes.length > 1 then (acc.1 ++ [built.1], built.2)
              else (acc.1, built.2))
          acc).1.map (fun c => c.nodes.map (fun n => n.request.id))).flatten,
          i ∈ (l.foldl
          (fun (acc : List ApiChain × List String) request =>
            if acc.2.contains request.id then acc
            else
              let built := buildChain request apiRequests acc.2
              if built.1.nodes.length > 1 then (acc.1 ++ [built.1], built.2)
              else (acc.1, built.2))
          acc).2) := by
  intro l
  induction l with
  | nil =>
    intro acc h
    simpa using h
  | cons request rl ih =>
    intro acc hInv
    simp only [List.foldl_cons]
    apply ih
    dsimp only
    split
    · exact hInv
    next hcont =>
      have hvis := buildChainGo_visited apiRequests (apiRequests.length + 1)
        (some request) acc.2 none
      have hmono : ∀ s ∈ acc.2,
          s ∈ (buildChain request apiRequests acc.2).2 := by
        intro s hs
        exact hvis.1 s hs
      have hnodes : (buildChain request apiRequests acc.2).1.nodes =
          (buildChainGo apiRequests (apiRequests.length + 1)
            (some request) acc.2 none).1 := rfl
      have hvisEq : (buildChain request apiRequests acc.2).2 =
          (buildChainGo apiRequests (apiRequests.length + 1)
            (some request) acc.2 none).2 := rfl
      split
      · constructor
        · rw [List.map_append, List.flatten_append]
          rw [List.nodup_append]
          refine ⟨hInv.1, ?_, ?_⟩
          · simp only [List.map_singleton, List.flatten, List.append_nil,
              hnodes]
            exact hvis.2.1
          · intro i hiold hinew
            have h1 : i ∈ acc.2 := hInv.2 i hiold
            have h2 : i ∉ acc.2 := by
              have : i ∈ ((buildChainGo apiRequests (apiRequests.length + 1)
                  (some request) acc.2 none).1.map
                    (fun n => n.request.id)) := by
                simpa [hnodes] using hinew
              exact (hvis.2.2 i this).1
            exact h2 h1
        · intro i hi
          rw [List.map_append, List.flatten_append] at hi
          rcases List.mem_append.mp hi with h | h
          · exact hvisEq ▸ hvis.1 i (hInv.2 i h)
          · have : i ∈ ((buildChainGo apiRequests (apiRequests.length + 1)
                (some request) acc.2 none).1.map (fun n => n.request.id)) := by
              simpa [hnodes] using h
            exact hvisEq ▸ (hvis.2.2 i this).2
      · constructor
        · exact hInv.1
        · intro i hi
          exact hvisEq ▸ hvis.1 i (hInv.2 i hi)

/-- C10: the reported API chains are pairwise node-disjoint — the
concatenation of all node-id lists over the output of `analyzeApiChains`
has no duplicate, so each xhr/fetch request appears as a node in at most
one chain, and at most once within it. -/
theorem apiChains_node_disjoint :
    ∀ (requests : List ParsedRequest),
      ((analyzeApiChains requests).map
        (fun c => c.nodes.map (fun n => n.request.id))).flatten.Nodup := by
  intro requests
  simp only [analyzeApiChains]
  split
  · simp
  · set apiRequests := ((requests.filter
        (fun r => r.type == .xhr || r.type == .fetch)).insertionSort
      (fun a b => a.startTime ≤ b.startTime)) with hapi
    have hres := chains_fold_disjoint apiRequests apiRequests ([], []) (by simp)
    set res := apiRequests.foldl
      (fun (acc : List ApiChain × List String) request =>
        if acc.2.contains request.id then acc
        else
          let built := buildChain request apiRequests acc.2
          if built.1.nodes.length > 1 then (acc.1 ++ [built.1], built.2)
          else (acc.1, built.2))
      ([], []) with hresdef
    have hperm : ((res.1.insertionSort
        (fun a b => b.totalDuration ≤ a.totalDuration)).map
          (fun c => c.nodes.map (fun n => n.request.id))).Perm
        (res.1.map (fun c => c.nodes.map (fun n => n.request.id))) :=
      (List.perm_insertionSort _ res.1).map _
    rw [List.nodup_flatten]
    rw [List.nodup_flatten] at hres
    refine ⟨?_, ?_⟩
    · intro l hl
      exact hres.1.1 l (hperm.mem_iff.mp hl)
    · exact (List.Perm.pairwise_iff
        (fun h => List.Disjoint.symm h) hperm).mpr hres.1.2

/-! ## Claim C7 -/

theorem count_map_slowest (l : List ComparisonResult) (k : String) :
    (l.map (fun c => c.slowestRegion)).count k =
      (l.filter (fun c => c.slowestRegion == k)).length := by
  have h1 : (l.map (fun c => c.slowestRegion)).count k =
      (l.map (fun c => c.slowestRegion)).countP (fun x => x == k) := rfl
  rw [h1, List.countP_map, List.countP_eq_length_filter]
  rfl

theorem bumpCount_keys (name : String) (m : List (String × Nat)) :
    (bumpCount name m).map Prod.fst =
      if name ∈ m.map Prod.fst then m.map Prod.fst
      else m.map Prod.fst ++ [name] := by
  induction m with
  | nil => simp [bumpCount]
  | cons q rest ih =>
    obtain ⟨qn, qv⟩ := q
    by_cases h : qn = name
    · subst h
      simp [bumpCount]
    · have hb : (qn == name) = false := beq_eq_false_iff_ne.mpr h
      by_cases hm : name ∈ rest.map Prod.fst <;>
        simp [bumpCount, hb, ih, hm, Ne.symm h]

theorem bumpCount_values (name : String) :
    ∀ (m : List (String × Nat)) (names : List String),
      (m.map Prod.fst).Nodup →
      (∀ q ∈ m, q.2 = names.count q.1) →
      (name ∈ m.map Prod.fst ∨ names.count name = 0) →
      ∀ p ∈ bumpCount name m, p.2 = (names ++ [name]).count p.1 := by
  intro m
  induction m with
  | nil =>
    intro names _ _ hcov p hp
    simp only [bumpCount, List.mem_singleton] at hp
    subst hp
    rcases hcov with h | h
    · simp at h
    · simp [List.count_append, h, List.count_singleton]
  | cons q rest ih =>
    obtain ⟨qn, qv⟩ := q
    intro names hnd hvals hcov p hp
    simp only [bumpCount] at hp
    split at hp
    next hqn =>
      have hqn2 : qn = name := by simpa using hqn
      rcases List.mem_cons.mp hp with h1 | h1
      · subst h1
        have hv := hvals (qn, qv) (List.mem_cons_self _ _)
        dsimp only at hv
        dsimp only
        subst hqn2
        simp [List.count_append, List.count_singleton, hv]
      · have hv := hvals p (List.mem_cons_of_mem _ h1)
        have hne : p.1 ≠ name := by
          intro he
          have hk : qn ∉ rest.map Prod.fst := by
            have := hnd
            rw [List.map_cons, List.nodup_cons] at this
            exact this.1
          have hpk : p.1 ∈ rest.map Prod.fst := List.mem_map_of_mem Prod.fst h1
          rw [he, ← hqn2] at hpk
          exact hk hpk
        rw [List.count_append, List.count_singleton,
          if_neg (by simpa using Ne.symm hne)]
        rw [hv]
        omega
    next hqn =>
      have hqn2 : qn ≠ name := by simpa using hqn
      rcases List.mem_cons.mp hp with h1 | h1
      · subst h1
        have hv := hvals (qn, qv) (List.mem_cons_self _ _)
        dsimp only at hv
        dsimp only
        rw [List.count_append, List.count_singleton,
          if_neg (by simpa using Ne.symm hqn2)]
        omega
      · apply ih names ?_ ?_ ?_ p h1
        · rw [List.map_cons, List.nodup_cons] at hnd
          exact hnd.2
        · exact fun q hq => hvals q (List.mem_cons_of_mem _ hq)
        · rcases hcov with h | h
          · rw [List.map_cons, List.mem_cons] at h
            rcases h with h | h
            · exact absurd h.symm hqn2
            · exact Or.inl h
          · exact Or.inr h

theorem bumpCount_coverage (name : String) (m : List (String × Nat))
    (names : List String) (hcov : ∀ s ∈ names, s ∈ m.map Prod.fst) :
    ∀ s ∈ names ++ [name], s ∈ (bumpCount name m).map Prod.fst := by
  intro s hs
  rw [bumpCount_keys]
  rcases List.mem_append.mp hs with h | h
  · split
    · exact hcov s h
    · exact List.mem_append.mpr (Or.inl (hcov s h))
  · rw [List.mem_singleton.mp h]
    split
    next hmem => exact hmem
    next => exact List.mem_append.mpr (Or.inr (List.mem_singleton.mpr rfl))

theorem bump_fold_spec :
    ∀ (todo : List ComparisonResult) (m : List (String × Nat))
      (names : List String),
      (m.map Prod.fst).Nodup →
      (∀ p ∈ m, p.2 = names.count p.1) →
      (∀ s ∈ names, s ∈ m.map Prod.fst) →
      (((todo.foldl (fun m c => bumpCount c.slowestRegion m) m).map
        Prod.fst).Nodup ∧
       (∀ p ∈ todo.foldl (fun m c => bumpCount c.slowestRegion m) m,
         p.2 = (names ++ todo.map (fun c => c.slowestRegion)).count p.1) ∧
       (∀ s ∈ names ++ todo.map (fun c => c.slowestRegion),
         s ∈ (todo.foldl (fun m c => bumpCount c.slowestRegion m) m).map
           Prod.fst)) := by
  intro todo
  induction todo with
  | nil =>
    intro m names hnd hvals hcov
    simp only [List.foldl_nil, List.map_nil, List.append_nil]
    exact ⟨hnd, hvals, hcov⟩
  | cons c todo ih =>
    intro m names hnd hvals hcov
    simp only [List.foldl_cons, List.map_cons]
    have hnd' : ((bumpCount c.slowestRegion m).map Prod.fst).Nodup := by
      rw [bumpCount_keys]
      split
      · exact hnd
      next hnmem =>
        rw [List.nodup_append]
        refine ⟨hnd, List.nodup_singleton _, fun a ha hb => ?_⟩
        rw [List.mem_singleton.mp hb] at ha
        exact hnmem ha
    have hcov0 : c.slowestRegion ∈ m.map Prod.fst ∨
        names.count c.slowestRegion = 0 := by
      by_cases hmem : c.slowestRegion ∈ m.map Prod.fst
      · exact Or.inl hmem
      · right
        exact List.count_eq_zero.mpr (fun hin => hmem (hcov _ hin))
    have h1 := ih (bumpCount c.slowestRegion m) (names ++ [c.slowestRegion])
      hnd'
      (bumpCount_values c.slowestRegion m names hnd hvals hcov0)
      (bumpCount_coverage c.slowestRegion m names hcov)
    refine ⟨h1.1, ?_, ?_⟩
    · intro p hp
      have := h1.2.1 p hp
      rwa [List.append_assoc, List.singleton_append] at this
    · intro s hs
      apply h1.2.2
      rwa [List.append_assoc, List.singleton_append]

theorem dnsFamilyRecs_category (newURL : String → Except Unit URLParts)
    (regions : List RegionData) :
    ∀ r ∈ dnsFamilyRecs newURL regions, r.category = .dns := by
  intro r hr
  simp only [dnsFamilyRecs] at hr
  split at hr
  · rw [List.mem_singleton.mp hr]
  · exact absurd hr (by simp)

theorem connectFamilyRecs_category (regions : List RegionData) :
    ∀ r ∈ connectFamilyRecs regions, r.category = .connection := by
  intro r hr
  simp only [connectFamilyRecs] at hr
  split at hr
  · rw [List.mem_singleton.mp hr]
  · exact absurd hr (by simp)

theorem ttfbFamilyRecs_category (regions : List RegionData) :
    ∀ r ∈ ttfbFamilyRecs regions, r.category = .server := by
  intro r hr
  simp only [ttfbFamilyRecs] at hr
  split at hr
  · rw [List.mem_singleton.mp hr]
  · exact absurd hr (by simp)

theorem downloadFamilyRecs_category (regions : List RegionData) :
    ∀ r ∈ downloadFamilyRecs regions, r.category = .payload := by
  intro r hr
  simp only [downloadFamilyRecs] at hr
  split at hr
  · rw [List.mem_singleton.mp hr]
  · exact absurd hr (by simp)

theorem regionFamilyRecs_spec (comparisons : List ComparisonResult) :
    (regionFamilyRecs comparisons).length ≤ 1 ∧
    ∀ r ∈ regionFamilyRecs comparisons,
      r.category = .cdn ∧
      r.priority = .high ∧
      ∃ (name : String) (stats : RegionStats) (details : List RegionDetail),
        r.affectedRegions = [name] ∧
        r.description = .region stats details ∧
        stats.region = name ∧
        stats.slowCount =
          (comparisons.filter (fun c => c.slowestRegion == name)).length ∧
        3 ≤ stats.slowCount ∧
        (∀ other : String,
          (comparisons.filter (fun c => c.slowestRegion == other)).length ≤
            stats.slowCount) ∧
        stats.avgDiff = mathRoundAvg
          (compDiffSum (comparisons.filter (fun c => c.slowestRegion == name)))
          ((comparisons.filter (fun c => c.slowestRegion == name)).length) ∧
        stats.totalComparisons = comparisons.length := by
  simp only [regionFamilyRecs]
  split
  case isFalse => exact ⟨by simp, by simp⟩
  case isTrue =>
    split
    next hS => exact ⟨by simp, by simp⟩
    next pr cnt restS hS =>
      split
      next hge3 =>
        have hspec := bump_fold_spec comparisons [] [] (by simp) (by simp) (by simp)
        have hheadmem : (pr, cnt) ∈
            comparisons.foldl (fun m c => bumpCount c.slowestRegion m) [] := by
          have h0 : (pr, cnt) ∈ List.insertionSort
              (fun a b : String × Nat => b.2 ≤ a.2)
              (comparisons.foldl (fun m c => bumpCount c.slowestRegion m) []) := by
            rw [hS]
            exact List.mem_cons_self _ _
          exact (List.mem_insertionSort _).mp h0
        have hcnt : cnt =
            (comparisons.filter (fun c => c.slowestRegion == pr)).length := by
          have := hspec.2.1 (pr, cnt) hheadmem
          dsimp only at this
          rwa [List.nil_append, count_map_slowest] at this
        have hpair := pairwise_sort_ge (fun p : String × Nat => p.2)
          (comparisons.foldl (fun m c => bumpCount c.slowestRegion m) [])
        rw [hS, List.pairwise_cons] at hpair
        have hdom : ∀ q ∈ comparisons.foldl
            (fun m c => bumpCount c.slowestRegion m) [], q.2 ≤ cnt := by
          intro q hq
          have hq2 : q ∈ (pr, cnt) :: restS := by
            rw [← hS]
            exact (List.mem_insertionSort _).mpr hq
          rcases List.mem_cons.mp hq2 with h | h
          · rw [h]
          · exact hpair.1 q h
        refine ⟨by simp, ?_⟩
        intro r hr
        rw [List.mem_singleton.mp hr]
        refine ⟨rfl, rfl, pr, _, _, rfl, rfl, rfl, hcnt, ?_, ?_, rfl, rfl⟩
        · dsimp only
          omega
        · intro other
          dsimp only
          by_cases hmem : other ∈ (comparisons.foldl
              (fun m c => bumpCount c.slowestRegion m) []).map Prod.fst
          · obtain ⟨q, hq, hfst⟩ := List.mem_map.mp hmem
            have hval := hspec.2.1 q hq
            rw [List.nil_append, count_map_slowest] at hval
            rw [← hfst, ← hval]
            exact hcnt ▸ hdom q hq
          · have hnil : comparisons.filter
                (fun c => c.slowestRegion == other) = [] := by
              rw [List.filter_eq_nil_iff]
              intro c hc hcon
              apply hmem
              have : c.slowestRegion = other := by simpa using hcon
              rw [← this]
              exact hspec.2.2 c.slowestRegion
                (by simpa using List.mem_map_of_mem (fun c => c.slowestRegion) hc)
            rw [hnil]
            simp
      next => exact ⟨by simp, by simp⟩

/-- C7: the region-disparity recommendation is emitted for at most one
region — at most one `cdn`-category recommendation ever appears, naming a
region whose slowest-party count over the supplied comparisons is maximal
and at least 3 — and when emitted its priority is `high` and its evidence
payload carries that region's comparison count and the rounded average
disparity over the comparisons it was slowest in, plus the total
comparison count. -/
theorem region_disparity_recommendation :
    ∀ (newURL : String → Except Unit URLParts) (regions : List RegionData)
      (comparisons : List ComparisonResult),
      ((generateRecommendations newURL regions comparisons).filter
        (fun r => r.category == RecCategory.cdn)).length ≤ 1 ∧
      ∀ r ∈ generateRecommendations newURL regions comparisons,
        r.category = .cdn →
          r.priority = .high ∧
          ∃ (name : String) (stats : RegionStats) (details : List RegionDetail),
            r.affectedRegions = [name] ∧
            r.description = .region stats details ∧
            stats.region = name ∧
            stats.slowCount =
              (comparisons.filter (fun c => c.slowestRegion == name)).length ∧
            3 ≤ stats.slowCount ∧
            (∀ other : String,
              (comparisons.filter (fun c => c.slowestRegion == other)).length ≤
                stats.slowCount) ∧
            stats.avgDiff = mathRoundAvg
              (compDiffSum (comparisons.filter
                (fun c => c.slowestRegion == name)))
              ((comparisons.filter (fun c => c.slowestRegion == name)).length) ∧
            stats.totalComparisons = comparisons.length := by
  intro newURL regions comparisons
  have hreg := regionFamilyRecs_spec comparisons
  constructor
  · simp only [generateRecommendations, List.filter_append, List.length_append]
    have z1 : ((dnsFamilyRecs newURL regions).filter
        (fun r => r.category == RecCategory.cdn)).length = 0 := by
      rw [List.length_eq_zero, List.filter_eq_nil_iff]
      intro a ha
      simp [dnsFamilyRecs_category newURL regions a ha]
    have z2 : ((connectFamilyRecs regions).filter
        (fun r => r.category == RecCategory.cdn)).length = 0 := by
      rw [List.length_eq_zero, List.filter_eq_nil_iff]
      intro a ha
      simp [connectFamilyRecs_category regions a ha]
    have z3 : ((ttfbFamilyRecs regions).filter
        (fun r => r.category == RecCategory.cdn)).length = 0 := by
      rw [List.length_eq_zero, List.filter_eq_nil_iff]
      intro a ha
      simp [ttfbFamilyRecs_category regions a ha]
    have z4 : ((downloadFamilyRecs regions).filter
        (fun r => r.category == RecCategory.cdn)).length = 0 := by
      rw [List.length_eq_zero, List.filter_eq_nil_iff]
      intro a ha
      simp [downloadFamilyRecs_category regions a ha]
    have z5 : ((regionFamilyRecs comparisons).filter
        (fun r => r.category == RecCategory.cdn)).length ≤ 1 :=
      le_trans (List.length_filter_le _ _) hreg.1
    omega
  · intro r hr hcdn
    simp only [generateRecommendations, List.mem_append] at hr
    rcases hr with (((h | h) | h) | h) | h
    · exact absurd hcdn (by simp [dnsFamilyRecs_category newURL regions r h])
    · exact absurd hcdn (by simp [connectFamilyRecs_category regions r h])
    · exact absurd hcdn (by simp [ttfbFamilyRecs_category regions r h])
    · exact absurd hcdn (by simp [downloadFamilyRecs_category regions r h])
    · exact ⟨(hreg.2 r h).2.1, (hreg.2 r h).2.2⟩

/-- C7 witness: the region-disparity theorem applied to a concrete run with
three comparisons all slowest in region `"B"`. -/
theorem region_disparity_recommendation_witness :
    ((generateRecommendations newURLfail [] compsB).filter
      (fun r => r.category == RecCategory.cdn)).length ≤ 1 ∧
    ((generateRecommendations newURLfail [] compsB).headD default).priority =
      RecPriority.high := by
  have h := region_disparity_recommendation newURLfail [] compsB
  exact ⟨h.1, (h.2 _ (by decide) (by decide)).1⟩
